import Mathlib

/-!
Verification development for the ClashRoyaleAR repository.

This file gives a shallow embedding in Lean 4 of the simulation core of the
repository (`ClashLib/Simulation.py`, `ClashLib/Entities.py`,
`ClashLib/Clash.py`, `ClashLib/Menu.py`) and proves or refutes the
specification claims about it.

Modelling conventions:
* Python floats are modelled as exact rationals (the kernel-computable
  type `Q` below, isomorphic to `ℚ`).
* `math.hypot` needs a square root, which does not exist inside `ℚ`; the
  simulation definitions are therefore parametrised by a function
  `sq : Q → Q` standing for the machine square-root routine applied to the
  already-squared argument (`hypot dx dy = sq (dx*dx + dy*dy)`).  Theorems
  that do not depend on the numeric value of distances quantify over `sq`;
  concrete executions instantiate it with `ratSqrt`, a computable rational
  approximation of the square root.
* Python exceptions (the `ValueError` of `Entity.__init__`, attribute errors
  on `None`) are modelled with `Except String`.
* Python object references (entity `target` fields alias board entities) are
  modelled with an append-only object heap: `Board.heap` holds every object
  ever created, keyed by its unique `entity_id`; the board's `entities` list
  holds ids.  Reaping removes an id from the list while the object stays in
  the heap, exactly like a dead Python object kept alive by a reference.
* `sorted(...)` (Timsort) is a stable sort; any stable sort computes the same
  list, so it is modelled by `List.insertionSort` with the non-strict key
  comparison, which is stable.
-/

/-! ## Kernel-computable exact rationals

Core `Rat` arithmetic goes through `Nat.gcd`, whose well-founded recursion the
kernel cannot reduce, so `decide` cannot evaluate concrete simulation runs
over `ℚ`.  `Q` below is the very same normalised numerator/denominator
representation with a structurally recursive (fuel-based) gcd, so that all
arithmetic reduces inside the kernel.  `Q.toRat` is the field-data-preserving
bijection onto `ℚ`; the transfer lemmas below carry every operation and the
order across, and all symbolic reasoning is done on `ℚ`. -/

def ngcd : Nat → Nat → Nat → Nat
  | 0, _, b => b
  | fuel + 1, a, b => if a = 0 then b else ngcd fuel (b % a) a

theorem ngcd_eq : ∀ (fuel a b : Nat), a ≤ fuel → ngcd fuel a b = Nat.gcd a b := by
  intro fuel
  induction fuel with
  | zero => intro a b h; interval_cases a; simp [ngcd]
  | succ f ih =>
      intro a b h
      by_cases ha : a = 0
      · subst ha; simp [ngcd]
      · rw [ngcd, if_neg ha, ih (b % a) a
          (by have := Nat.mod_lt b (Nat.pos_of_ne_zero ha); omega)]
        exact (Nat.gcd_rec a b).symm

def gcdc (a b : Nat) : Nat := ngcd (a + 1) a b

theorem gcdc_eq (a b : Nat) : gcdc a b = Nat.gcd a b :=
  ngcd_eq (a + 1) a b (Nat.le_succ a)

structure Q where
  n : Int
  d : Nat
  dpos : 0 < d
  red : n.natAbs.Coprime d

theorem Q.ext' : ∀ {x y : Q}, x.n = y.n → x.d = y.d → x = y := by
  rintro ⟨a, b, _, _⟩ ⟨c, e, _, _⟩ h1 h2
  cases h1; cases h2; rfl

instance : DecidableEq Q := fun x y =>
  if h : x.n = y.n ∧ x.d = y.d then isTrue (Q.ext' h.1 h.2)
  else isFalse (fun he => h (by cases he; exact ⟨rfl, rfl⟩))

def Q.toRat (x : Q) : ℚ := ⟨x.n, x.d, Nat.pos_iff_ne_zero.mp x.dpos, x.red⟩

theorem Q.toRat_inj {x y : Q} (h : x.toRat = y.toRat) : x = y := by
  cases x; cases y; cases h; rfl

theorem Q.toRat_eq_divInt (x : Q) : x.toRat = Rat.divInt x.n x.d :=
  Rat.mk'_eq_divInt

def Q.mk' (num : Int) (den : Nat) (hden : den ≠ 0) : Q :=
  { n := num / (gcdc num.natAbs den : Int)
    d := den / gcdc num.natAbs den
    dpos := by
      rw [gcdc_eq]
      have h := @Rat.normalize_eq num den hden
      have hd : (Rat.normalize num den hden).den = den / num.natAbs.gcd den := by
        rw [h]
      rw [← hd]
      exact Nat.pos_of_ne_zero (Rat.normalize num den hden).den_nz
    red := by
      rw [gcdc_eq]
      have h := @Rat.normalize_eq num den hden
      have hn : (Rat.normalize num den hden).num = num / (num.natAbs.gcd den : Int) := by
        rw [h]
      have hd : (Rat.normalize num den hden).den = den / num.natAbs.gcd den := by
        rw [h]
      rw [← hn, ← hd]
      exact (Rat.normalize num den hden).reduced }

theorem Q.toRat_mk' (num : Int) (den : Nat) (hden : den ≠ 0) :
    (Q.mk' num den hden).toRat = Rat.divInt num den := by
  have h1 : (Q.mk' num den hden).toRat = Rat.normalize num den hden := by
    apply Rat.ext
    · show (Q.mk' num den hden).n = _
      rw [Rat.normalize_eq hden]
      simp [Q.mk', gcdc_eq]
    · show (Q.mk' num den hden).d = _
      rw [Rat.normalize_eq hden]
      simp [Q.mk', gcdc_eq]
  rw [h1, Rat.normalize_eq_mkRat, Rat.mkRat_eq_divInt]

/-! Arithmetic on `Q` (all kernel-computable). -/

instance (k : Nat) : OfNat Q k :=
  ⟨⟨(k : Int), 1, Nat.one_pos, Nat.coprime_one_right _⟩⟩

instance : NatCast Q := ⟨fun k => ⟨(k : Int), 1, Nat.one_pos, Nat.coprime_one_right _⟩⟩

instance : IntCast Q := ⟨fun i => ⟨i, 1, Nat.one_pos, Nat.coprime_one_right _⟩⟩

def Q.add (x y : Q) : Q :=
  Q.mk' (x.n * y.d + y.n * x.d) (x.d * y.d)
    (Nat.mul_ne_zero (Nat.pos_iff_ne_zero.mp x.dpos) (Nat.pos_iff_ne_zero.mp y.dpos))

instance : Add Q := ⟨Q.add⟩

def Q.neg (x : Q) : Q :=
  ⟨-x.n, x.d, x.dpos, by simpa using x.red⟩

instance : Neg Q := ⟨Q.neg⟩

def Q.sub (x y : Q) : Q := x + (-y)

instance : Sub Q := ⟨Q.sub⟩

def Q.mul (x y : Q) : Q :=
  Q.mk' (x.n * y.n) (x.d * y.d)
    (Nat.mul_ne_zero (Nat.pos_iff_ne_zero.mp x.dpos) (Nat.pos_iff_ne_zero.mp y.dpos))

instance : Mul Q := ⟨Q.mul⟩

def Q.inv (x : Q) : Q :=
  if h : 0 < x.n then
    ⟨(x.d : Int), x.n.natAbs, Int.natAbs_pos.mpr (ne_of_gt h),
      by simpa using x.red.symm⟩
  else if h' : x.n < 0 then
    ⟨-(x.d : Int), x.n.natAbs, Int.natAbs_pos.mpr (ne_of_lt h'),
      by simpa using x.red.symm⟩
  else 0

instance : Inv Q := ⟨Q.inv⟩

def Q.div (x y : Q) : Q := x * y⁻¹

instance : Div Q := ⟨Q.div⟩

def Q.le (x y : Q) : Prop := x.n * (y.d : Int) ≤ y.n * (x.d : Int)

instance : LE Q := ⟨Q.le⟩

def Q.lt (x y : Q) : Prop := x.n * (y.d : Int) < y.n * (x.d : Int)

instance : LT Q := ⟨Q.lt⟩

instance : DecidableRel (· ≤ · : Q → Q → Prop) := fun x y =>
  inferInstanceAs (Decidable (x.n * (y.d : Int) ≤ y.n * (x.d : Int)))

instance : DecidableRel (· < · : Q → Q → Prop) := fun x y =>
  inferInstanceAs (Decidable (x.n * (y.d : Int) < y.n * (x.d : Int)))

instance : Max Q := ⟨fun x y => if x ≤ y then y else x⟩

instance : Min Q := ⟨fun x y => if x ≤ y then x else y⟩

/-- `int(x)` for the nonnegative values the simulation takes it of
(Python truncation and floor agree there). -/
def Q.floor (x : Q) : Int := x.n / (x.d : Int)

/-! Transfer lemmas: `Q.toRat` respects all operations and the order. -/

theorem Q.toRat_ofNat (k : Nat) : (OfNat.ofNat k : Q).toRat = (k : ℚ) := by
  rw [toRat_eq_divInt]
  show Rat.divInt (k : Int) ((1 : Nat) : Int) = _
  simp

theorem Q.toRat_zero : (0 : Q).toRat = 0 := by
  rw [show (0 : Q) = OfNat.ofNat 0 from rfl, Q.toRat_ofNat]
  norm_num

theorem Q.toRat_one : (1 : Q).toRat = 1 := by
  rw [show (1 : Q) = OfNat.ofNat 1 from rfl, Q.toRat_ofNat]
  norm_num

theorem Q.toRat_natCast (k : Nat) : (k : Q).toRat = (k : ℚ) := by
  rw [toRat_eq_divInt]
  show Rat.divInt (k : Int) ((1 : Nat) : Int) = _
  simp

theorem Q.toRat_intCast (i : Int) : (i : Q).toRat = (i : ℚ) := by
  rw [toRat_eq_divInt]
  show Rat.divInt i ((1 : Nat) : Int) = _
  simp

theorem Q.dcast_ne (x : Q) : ((x.d : Int) : ℚ) ≠ 0 := by
  exact_mod_cast Nat.pos_iff_ne_zero.mp x.dpos

theorem Q.dInt_ne (x : Q) : (x.d : Int) ≠ 0 := by
  exact_mod_cast Nat.pos_iff_ne_zero.mp x.dpos

theorem Q.toRat_add (x y : Q) : (x + y).toRat = x.toRat + y.toRat := by
  show (Q.add x y).toRat = _
  rw [Q.add, Q.toRat_mk', toRat_eq_divInt, toRat_eq_divInt,
    Rat.divInt_add_divInt _ _ x.dInt_ne y.dInt_ne]
  norm_cast

theorem Q.toRat_neg (x : Q) : (-x).toRat = -x.toRat := by
  show (Q.neg x).toRat = _
  rw [Q.neg, toRat_eq_divInt, toRat_eq_divInt]
  show Rat.divInt (-x.n) _ = _
  rw [Rat.neg_divInt]

theorem Q.toRat_sub (x y : Q) : (x - y).toRat = x.toRat - y.toRat := by
  show (Q.sub x y).toRat = _
  rw [Q.sub, Q.toRat_add, Q.toRat_neg, sub_eq_add_neg]

theorem Q.toRat_mul (x y : Q) : (x * y).toRat = x.toRat * y.toRat := by
  show (Q.mul x y).toRat = _
  rw [Q.mul, Q.toRat_mk', toRat_eq_divInt, toRat_eq_divInt,
    Rat.divInt_mul_divInt _ _ x.dInt_ne y.dInt_ne]
  norm_cast

theorem Q.toRat_inv (x : Q) : (x⁻¹).toRat = (x.toRat)⁻¹ := by
  show (Q.inv x).toRat = _
  rw [Q.inv]
  by_cases h : 0 < x.n
  · rw [dif_pos h, toRat_eq_divInt, toRat_eq_divInt]
    show Rat.divInt (x.d : Int) (x.n.natAbs : Int) = _
    rw [Rat.inv_divInt']
    congr 1
    omega
  · by_cases h' : x.n < 0
    · rw [dif_neg h, dif_pos h', toRat_eq_divInt, toRat_eq_divInt]
      show Rat.divInt (-(x.d : Int)) (x.n.natAbs : Int) = _
      rw [Rat.inv_divInt', show (x.n.natAbs : Int) = -x.n by omega,
        Rat.neg_divInt_neg]
    · have hx : x.n = 0 := by omega
      rw [dif_neg h, dif_neg h']
      show (OfNat.ofNat 0 : Q).toRat = _
      rw [Q.toRat_ofNat, toRat_eq_divInt, hx, Rat.zero_divInt]
      norm_num

theorem Q.toRat_div (x y : Q) : (x / y).toRat = x.toRat / y.toRat := by
  show (Q.div x y).toRat = _
  rw [Q.div, Q.toRat_mul, Q.toRat_inv, div_eq_mul_inv]

theorem Q.le_iff (x y : Q) : x ≤ y ↔ x.toRat ≤ y.toRat := by
  rw [toRat_eq_divInt, toRat_eq_divInt]
  rw [Rat.divInt_le_divInt (by exact_mod_cast x.dpos) (by exact_mod_cast y.dpos)]
  rfl

theorem Q.lt_iff (x y : Q) : x < y ↔ x.toRat < y.toRat := by
  constructor
  · intro h
    by_contra hle
    push_neg at hle
    rw [← Q.le_iff] at hle
    have h1 : y.n * (x.d : Int) ≤ x.n * (y.d : Int) := hle
    have h2 : x.n * (y.d : Int) < y.n * (x.d : Int) := h
    omega
  · intro h
    by_contra hlt
    have hle : y ≤ x := by
      have : ¬ (x.n * (y.d : Int) < y.n * (x.d : Int)) := hlt
      show y.n * (x.d : Int) ≤ x.n * (y.d : Int)
      omega
    rw [Q.le_iff] at hle
    exact absurd h (not_lt.mpr hle)

theorem Q.eq_iff (x y : Q) : x = y ↔ x.toRat = y.toRat :=
  ⟨fun h => h ▸ rfl, Q.toRat_inj⟩

theorem Q.toRat_max (x y : Q) : (max x y).toRat = max x.toRat y.toRat := by
  show (if x ≤ y then y else x).toRat = _
  by_cases h : x ≤ y
  · rw [if_pos h, max_eq_right ((Q.le_iff x y).mp h)]
  · rw [if_neg h, max_eq_left]
    have := (not_iff_not.mpr (Q.le_iff x y)).mp h
    exact le_of_not_le this

theorem Q.toRat_min (x y : Q) : (min x y).toRat = min x.toRat y.toRat := by
  show (if x ≤ y then x else y).toRat = _
  by_cases h : x ≤ y
  · rw [if_pos h, min_eq_left ((Q.le_iff x y).mp h)]
  · rw [if_neg h, min_eq_right]
    exact le_of_not_le ((not_iff_not.mpr (Q.le_iff x y)).mp h)

theorem Q.floor_eq (x : Q) : x.floor = ⌊x.toRat⌋ := by
  rw [Q.floor, toRat_eq_divInt, Rat.divInt_eq_div]
  rw [show ((x.d : Int) : ℚ) = (x.d : ℚ) by norm_cast]
  rw [Rat.floor_intCast_div_natCast]

/-- Binary-search integer square root with explicit fuel (structurally
recursive so that the kernel can evaluate it). -/
def isqrtAux : Nat → Nat → Nat → Nat → Nat
  | 0, _, lo, _ => lo
  | fuel + 1, n, lo, hi =>
      if hi ≤ lo then lo
      else
        let mid := (lo + hi + 1) / 2
        if mid * mid ≤ n then isqrtAux fuel n mid hi
        else isqrtAux fuel n lo (mid - 1)

/-- Integer square root (400 fuel covers every argument below `2 ^ 400`). -/
def isqrt (n : Nat) : Nat := isqrtAux 400 n 0 n

/-- A computable rational approximation of the square root (about six decimal
digits), standing in for the floating-point square root in concrete runs. -/
def ratSqrt (q : Q) : Q :=
  if q ≤ 0 then 0
  else Q.mk' (isqrt ((q.n.toNat * 10 ^ 12) / q.d)) (10 ^ 6) (by norm_num)

/-- The square-root routine the simulation is parametrised by
(`math.hypot(dx, dy)` is modelled as `sq (dx*dx + dy*dy)`). -/
abbrev Sqrt := Q → Q

/-! ## Events and the timeline (`ClashLib/Simulation.py`) -/

/-- Modelled from the spec: the payload of a `spawn_unit` event
(`{"entity_type": ..., "grid_position": [col,row], "player_id": ...}`,
spec §6).  The `Event` class in `src/ClashLib/Simulation.py` has no `data`
attribute although `Clash.py` constructs events with one and
`ClashSimulation.process_event` reads it with `dict.get` (absent keys give
`None`, hence the `Option` fields). -/
structure SpawnData where
  entity_type : Option String
  grid_position : Option (Q × Q)
  player_id : Option String
deriving DecidableEq

/-- `Event` from `ClashLib/Simulation.py`: type, timestamp, delay and the
derived `aparition_time = timestamp + delay`, plus the spec-modelled payload. -/
structure Event where
  event_type : String
  timestamp : Q
  delay : Q
  aparition_time : Q
  data : SpawnData
deriving DecidableEq

/-- `Event.__init__`: stores the fields and computes `aparition_time`. -/
def Event.make (event_type : String) (timestamp delay : Q) (data : SpawnData) :
    Event :=
  { event_type := event_type, timestamp := timestamp, delay := delay
    aparition_time := timestamp + delay, data := data }

/-- The state of `GameTimeline`: simulation time, tick duration and the
pending event list. -/
structure GameTimeline where
  simulation_time : Q
  tick_time : Q
  events : List Event
deriving DecidableEq

/-- Key order used by `add_event`'s `sort(key=lambda e: e.aparition_time)`. -/
def eventLE (a b : Event) : Prop := a.aparition_time ≤ b.aparition_time

instance : DecidableRel eventLE := fun a b =>
  inferInstanceAs (Decidable (a.aparition_time ≤ b.aparition_time))

/-- `GameTimeline.add_event`: append, then stable-sort by `aparition_time`.
Python's `list.sort` is stable; a stable sort is computed by
`List.insertionSort` with the non-strict comparison. -/
def GameTimeline.add_event (tl : GameTimeline) (e : Event) : GameTimeline :=
  { tl with events := List.insertionSort eventLE (tl.events ++ [e]) }

/-- `GameTimeline.get_events_in_range`: the events whose `aparition_time`
lies in the closed interval `[start_time, end_time]`. -/
def GameTimeline.get_events_in_range (tl : GameTimeline) (start_time end_time : Q) :
    List Event :=
  tl.events.filter (fun e =>
    decide (start_time ≤ e.aparition_time) && decide (e.aparition_time ≤ end_time))

/-- The timeline projection of `GameTimeline.execute_tick`: the drained events
are those of `get_events_in_range(simulation_time, simulation_time + tick_time)`
and then `simulation_time` advances by `tick_time`.  (The board update inside
`execute_tick` never touches the timeline fields.) -/
def GameTimeline.tickTL (tl : GameTimeline) : GameTimeline × List Event :=
  let drained := tl.get_events_in_range tl.simulation_time
    (tl.simulation_time + tl.tick_time)
  ({ tl with simulation_time := tl.simulation_time + tl.tick_time }, drained)

/-- An `add`/`tick` operation on the timeline. -/
inductive TLOp where
  | add (e : Event)
  | tick
deriving DecidableEq

/-- Run a sequence of operations, collecting the per-tick drained batches. -/
def runTLOps (tl : GameTimeline) : List TLOp → GameTimeline × List (List Event)
  | [] => (tl, [])
  | TLOp.add e :: ops => runTLOps (tl.add_event e) ops
  | TLOp.tick :: ops =>
      let (tl', drained) := tl.tickTL
      let (tlFinal, rest) := runTLOps tl' ops
      (tlFinal, drained :: rest)

/-! ## Menu / elixir arbiter (`ClashLib/Menu.py`) -/

/-- `Card`: type and elixir cost. -/
structure Card where
  card_type : String
  cost_elixir : Q
deriving DecidableEq

/-- The state of `Menu`.  `elixir` is absent until `set_game_start_time` or
the first `update_elixir_synced` call writes it, and `game_start_time` is
`None` until connection, hence the `Option`s.  The randomly generated deck is
a parameter of the initial state (deck randomness is local, per spec §4.7). -/
structure Menu where
  selected_card : Option Nat
  last_update_time : Q
  initial_elixir : Q
  max_elixir : Q
  deck : List Card
  game_start_time : Option Q
  generated_elixir : Q
  elixir_used : Q
  elixir_wasted : Q
  seconds_for_one_elixir : Q
  elixir : Option Q
deriving DecidableEq

/-- `Menu.__init__` (minus rendering state), with the generated deck passed
in for the `random.choice` draws. -/
def Menu.init (deck : List Card) : Menu :=
  { selected_card := none, last_update_time := 0, initial_elixir := 7
    max_elixir := 10, deck := deck, game_start_time := none
    generated_elixir := 0, elixir_used := 0, elixir_wasted := 0
    seconds_for_one_elixir := 3/2, elixir := none }

/-- `Menu.set_game_start_time`: records the start time and sets `elixir = 7`. -/
def Menu.set_game_start_time (m : Menu) (start_time : Q) : Menu :=
  { m with game_start_time := some start_time, elixir := some 7 }

/-- `Menu.update_elixir_synced`.  The first call (detected by
`last_update_time == 0`) just pins `elixir` to `initial_elixir`; later calls
recompute from the synced clock and rebalance `elixir_wasted` when the value
exceeds `max_elixir`.  Reading `game_start_time` while it is `None` is a
Python `TypeError`, modelled as an error. -/
def Menu.update_elixir_synced (m : Menu) (current_synced_time : Q) :
    Except String Menu :=
  if m.last_update_time = 0 then
    .ok { m with last_update_time := current_synced_time
                 elixir := some m.initial_elixir }
  else
    match m.game_start_time with
    | none => .error "TypeError: game_start_time is None"
    | some start =>
        let time_elapsed := current_synced_time - start
        let generated := time_elapsed / m.seconds_for_one_elixir
        let e0 := m.initial_elixir + generated - m.elixir_used - m.elixir_wasted
        let (e1, w1) :=
          if e0 > m.max_elixir then
            (m.max_elixir,
             (m.initial_elixir + generated) - m.max_elixir - m.elixir_used)
          else (e0, m.elixir_wasted)
        .ok { m with last_update_time := current_synced_time
                     generated_elixir := generated
                     elixir := some e1
                     elixir_wasted := max 0 w1 }

/-- `Menu.use_selected_card`: charge the selected card if affordable,
returning the card type; on insufficient elixir return `None` (leaving
`selected_card` untouched).  Reading an unset `elixir` or an out-of-range
deck index is a Python error. -/
def Menu.use_selected_card (m : Menu) : Except String (Menu × Option String) :=
  match m.selected_card with
  | none => .ok (m, none)
  | some idx =>
      match m.deck.get? idx with
      | none => .error "IndexError: deck index out of range"
      | some card =>
          match m.elixir with
          | none => .error "AttributeError: elixir not set"
          | some e =>
              if card.cost_elixir ≤ e then
                .ok ({ m with elixir := some (e - card.cost_elixir)
                              elixir_used := m.elixir_used + card.cost_elixir
                              selected_card := none }, some card.card_type)
              else
                .ok (m, none)

instance {e a : Type} [DecidableEq e] [DecidableEq a] : DecidableEq (Except e a) :=
  fun x y =>
    match x, y with
    | Except.ok v, Except.ok w =>
        if h : v = w then isTrue (by rw [h])
        else isFalse (fun hc => h (by cases hc; rfl))
    | Except.error v, Except.error w =>
        if h : v = w then isTrue (by rw [h])
        else isFalse (fun hc => h (by cases hc; rfl))
    | Except.ok _, Except.error _ => isFalse (fun hc => Except.noConfusion hc)
    | Except.error _, Except.ok _ => isFalse (fun hc => Except.noConfusion hc)

/-! ## Entities (`ClashLib/Entities.py`) -/

/-- `EntityType`. -/
inductive EntityType where
  | troop | tower | spell | projectile
deriving DecidableEq

/-- `TowerType`. -/
inductive TowerType where
  | central | lateral
deriving DecidableEq

/-- `StateType`. -/
inductive StateType where
  | idle | moving | attacking
deriving DecidableEq

/-- The concrete troop subclass (`Caballero` / `Mago` / `Mosquetera`). -/
inductive TroopKind where
  | caballero | mago | mosquetera
deriving DecidableEq

/-- One Python entity object, flattened: the common `Entity` attributes plus
the attributes each subclass adds (fields irrelevant to a given `type` keep
their default and are never read, mirroring absent Python attributes).
`target` holds the id of the referenced object (references are resolved in
the append-only heap). -/
structure Ent where
  entity_id : Nat
  type : EntityType
  x : Q
  y : Q
  owner : Option String
  active : Bool
  tower_type : TowerType := TowerType.central
  size : Q := 0
  life : Q := 0
  max_life : Q := 0
  damage : Q := 0
  hit_speed : Q := 0
  attack_range : Q := 0
  cooldown : Q := 0
  target : Option Nat := none
  state : StateType := StateType.idle
  troop_kind : TroopKind := TroopKind.caballero
  speed : Q := 0
  range : Q := 0
  delay : Q := 0
  projectile_speed : Q := 0
  duration : Q := 0
  radius : Q := 0
  max_duration : Q := 0
  elapsed_time : Q := 0
  reached_target : Bool := false
  target_pos : Option (Q × Q) := none
  is_area : Bool := false
  troops_hit : List Nat := []
deriving DecidableEq

/-- Look an object up in the heap by id (dereference a Python reference). -/
def getObj (heap : List Ent) (i : Nat) : Option Ent :=
  heap.find? (fun e => e.entity_id == i)

/-- Write back the mutated state of an object (identified by its id). -/
def setObj (heap : List Ent) (e : Ent) : List Ent :=
  heap.map (fun o => if o.entity_id == e.entity_id then e else o)

/-- `Entity.__init__`: bounds-check the cell coordinates (raising
`ValueError` otherwise), then centre the position at `(+0.5, +0.5)` and draw
a fresh id from the global counter (`get_next_id` pre-increments).  Returns
the centred position, the new id and the new counter value. -/
def entityInit (cell_x cell_y : Q) (counter : Nat) :
    Except String ((Q × Q) × Nat × Nat) :=
  if cell_x < 0 ∨ 18 ≤ cell_x ∨ cell_y < 0 ∨ 32 ≤ cell_y then
    .error "ValueError: Coordinates are out of bounds."
  else
    .ok ((cell_x + 1/2, cell_y + 1/2), counter + 1, counter + 1)

/-- `Tower.__init__`. -/
def mkTower (cell_x cell_y : Q) (owner : Option String) (tower_type : TowerType)
    (counter : Nat) : Except String (Ent × Nat) := do
  let ((px, py), eid, counter') ← entityInit cell_x cell_y counter
  let size : Q := if tower_type = TowerType.central then 4 else 3
  let life : Q := if tower_type = TowerType.central then 4824 else 3052
  .ok ({ entity_id := eid, type := EntityType.tower, x := px, y := py
         owner := owner, active := true, tower_type := tower_type
         size := size, life := life, max_life := life
         hit_speed := if tower_type = TowerType.central then 1 else 4/5
         attack_range := 15/2 + size/2
         damage := 109, cooldown := 0, target := none
         state := StateType.idle }, counter')

/-- `Troop.__init__` (common part), with the subclass-specific constants
supplied by the concrete constructors below. -/
def mkTroop (kind : TroopKind) (cell_x cell_y life : Q) (owner : Option String)
    (damage speed range hit_speed projectile_speed : Q) (counter : Nat) :
    Except String (Ent × Nat) := do
  let ((px, py), eid, counter') ← entityInit cell_x cell_y counter
  .ok ({ entity_id := eid, type := EntityType.troop, x := px, y := py
         owner := owner, active := true, troop_kind := kind
         life := life, max_life := life, damage := damage, speed := speed
         range := range, hit_speed := hit_speed, target := none
         cooldown := 0, state := StateType.idle, delay := 1
         projectile_speed := projectile_speed }, counter')

/-- `Caballero.__init__`. -/
def mkCaballero (cell_x cell_y : Q) (owner : Option String) (counter : Nat) :
    Except String (Ent × Nat) :=
  mkTroop TroopKind.caballero cell_x cell_y 1766 owner 202 1 1 (6/5) 0 counter

/-- `Mago.__init__` (projectile speed 10). -/
def mkMago (cell_x cell_y : Q) (owner : Option String) (counter : Nat) :
    Except String (Ent × Nat) :=
  mkTroop TroopKind.mago cell_x cell_y 755 owner 281 1 (11/2) (7/5) 10 counter

/-- `Mosquetera.__init__` (projectile speed 15). -/
def mkMosquetera (cell_x cell_y : Q) (owner : Option String) (counter : Nat) :
    Except String (Ent × Nat) :=
  mkTroop TroopKind.mosquetera cell_x cell_y 721 owner 217 1 6 1 15 counter

/-- `Projectile.__init__`: the creator passes its own continuous position as
the "cell" coordinates (so the projectile spawns at `creator + (0.5, 0.5)`),
and `target_pos` snapshots the target's position if a target is given. -/
def mkProjectile (heap : List Ent) (cell_x cell_y : Q) (owner : Option String)
    (speed : Q) (target : Option Nat) (damage : Q) (counter : Nat) :
    Except String (Ent × Nat) := do
  let ((px, py), eid, counter') ← entityInit cell_x cell_y counter
  let tpos ← match target with
    | none => pure (none : Option (Q × Q))
    | some tid =>
        match getObj heap tid with
        | some tgt => pure (some (tgt.x, tgt.y))
        | none => Except.error "AttributeError: dangling target reference"
  .ok ({ entity_id := eid, type := EntityType.projectile, x := px, y := py
         owner := owner, active := true, speed := speed, target := target
         damage := damage, max_duration := 5, elapsed_time := 0
         reached_target := false, target_pos := tpos }, counter')

/-- `AreaProjectile.__init__`. -/
def mkAreaProjectile (heap : List Ent) (cell_x cell_y : Q) (owner : Option String)
    (speed : Q) (target : Option Nat) (damage radius : Q) (counter : Nat) :
    Except String (Ent × Nat) := do
  let (p, counter') ← mkProjectile heap cell_x cell_y owner speed target damage counter
  .ok ({ p with is_area := true, radius := radius, troops_hit := [] }, counter')

/-- `Spell.__init__`. -/
def mkSpell (cell_x cell_y : Q) (owner : Option String) (duration damage radius : Q)
    (counter : Nat) : Except String (Ent × Nat) := do
  let ((px, py), eid, counter') ← entityInit cell_x cell_y counter
  .ok ({ entity_id := eid, type := EntityType.spell, x := px, y := py
         owner := owner, active := true, duration := duration
         damage := damage, radius := radius }, counter')

/-- `Entity.distance_to` with the `Tower` override: a tower subtracts
`size/2` from the centroid distance.  `sq` is the square-root routine
(`math.hypot(dx, dy) = sq (dx*dx + dy*dy)`). -/
def Ent.distance_to (sq : Sqrt) (self other : Ent) : Q :=
  let d := sq ((self.x - other.x) * (self.x - other.x) +
              (self.y - other.y) * (self.y - other.y))
  if self.type = EntityType.tower then d - self.size / 2 else d

/-- `Entity.distance_to_point` (no override is ever exercised on it). -/
def Ent.distance_to_point (sq : Sqrt) (self : Ent) (point : Q × Q) : Q :=
  sq ((self.x - point.1) * (self.x - point.1) +
      (self.y - point.2) * (self.y - point.2))

/-- `Tower.in_range`. -/
def Ent.tower_in_range (sq : Sqrt) (self target : Ent) : Bool :=
  self.distance_to sq target ≤ self.attack_range

/-- `Troop.in_range`: against a tower, use the tower's overridden
`distance_to` (`target.distance_to(self)`); otherwise the plain distance. -/
def Ent.troop_in_range (sq : Sqrt) (self target : Ent) : Bool :=
  if target.type = EntityType.tower then
    target.distance_to sq self ≤ self.range
  else
    self.distance_to sq target ≤ self.range

/-- The key order of `sorted(entities, key=lambda e: self.distance_to(e))`. -/
def distanceKeyLE (sq : Sqrt) (self a b : Ent) : Prop :=
  self.distance_to sq a ≤ self.distance_to sq b

instance (sq : Sqrt) (self : Ent) : DecidableRel (distanceKeyLE sq self) :=
  fun a b =>
    inferInstanceAs (Decidable (self.distance_to sq a ≤ self.distance_to sq b))

/-- `Tower.look_for_target`: only when `Idle`, scan the entities in ascending
distance order and take the first hostile, active troop-or-tower that is in
range. -/
def Ent.tower_look_for_target (sq : Sqrt) (self : Ent) (entities : List Ent) :
    Ent :=
  if self.state ≠ StateType.idle then self
  else
    let entities_copy := List.insertionSort (distanceKeyLE sq self) entities
    match entities_copy.find? (fun e =>
        !(e.owner == self.owner) && e.active &&
        (e.type == EntityType.troop || e.type == EntityType.tower) &&
        self.tower_in_range sq e) with
    | some e => { self with target := some e.entity_id }
    | none => self

/-- `Troop.look_for_target`: unless already `Attacking`, target the nearest
hostile, active troop-or-tower (no range restriction). -/
def Ent.troop_look_for_target (sq : Sqrt) (self : Ent) (entities : List Ent) :
    Ent :=
  if self.state = StateType.attacking then self
  else
    let entities_copy := List.insertionSort (distanceKeyLE sq self) entities
    match entities_copy.find? (fun e =>
        !(e.owner == self.owner) && e.active &&
        (e.type == EntityType.troop || e.type == EntityType.tower)) with
    | some e => { self with target := some e.entity_id }
    | none => self

/-- `Tower.can_i_attack`: laterals always; a central only if damaged or if
some own-side non-central tower in the entity list has `life ≤ 0`. -/
def Ent.can_i_attack (self : Ent) (entities : List Ent) : Bool :=
  if self.tower_type ≠ TowerType.central then true
  else if self.life < self.max_life then true
  else entities.any (fun e =>
    e.owner == self.owner && e.type == EntityType.tower &&
    !(e.tower_type == TowerType.central) && decide (e.life ≤ 0))

/-- `Tower.receive_damage` / `Troop.receive_damage` (identical code):
subtract, deactivate at `life ≤ 0`. -/
def Ent.receive_damage (self : Ent) (amount : Q) : Ent :=
  let life' := self.life - amount
  { self with life := life', active := if life' ≤ 0 then false else self.active }

/-- Apply `receive_damage` to the object `tid` refers to. -/
def damageObj (heap : List Ent) (tid : Nat) (amount : Q) : List Ent :=
  heap.map (fun o => if o.entity_id == tid then o.receive_damage amount else o)

/-- `Tower.update`. -/
def Ent.tower_update (sq : Sqrt) (heap : List Ent) (entities : List Ent)
    (self : Ent) : Except String Ent :=
  if self.life ≤ 0 then
    .ok { self with active := false }
  else if ¬ self.can_i_attack entities then
    .ok { self with state := StateType.idle, cooldown := 0, target := none }
  else do
    let self1 ←
      match self.target with
      | some tid =>
          match getObj heap tid with
          | none => Except.error "AttributeError: dangling target reference"
          | some tgt =>
              if 0 < tgt.life ∧ self.tower_in_range sq tgt then
                pure { self with state := StateType.attacking }
              else
                pure { self with state := StateType.idle, target := none }
      | none => pure { self with state := StateType.idle, target := none }
    .ok (self1.tower_look_for_target sq entities)

/-- `Troop.get_valid_waypoints`: centres of the free in-bounds 8-neighbour
cells of the current integer cell. -/
def Ent.get_valid_waypoints (self : Ent) (obstacles : List (Int × Int)) :
    List (Q × Q) :=
  ([-1, 0, 1] : List Int).foldl (fun acc i =>
    ([-1, 0, 1] : List Int).foldl (fun acc2 j =>
      if i = 0 ∧ j = 0 then acc2
      else
        let new_x : Int := self.x.floor + i
        let new_y : Int := self.y.floor + j
        if 0 ≤ new_x ∧ new_x < 18 ∧ 0 ≤ new_y ∧ new_y < 32 then
          if (new_x, new_y) ∉ obstacles then
            acc2 ++ [((new_x : Q) + 1/2, (new_y : Q) + 1/2)]
          else acc2
        else acc2) acc) []

/-- `Troop.get_target_waypoint`: the valid waypoint whose centre minimises
the distance to the target's position (first strict minimum wins). -/
def Ent.get_target_waypoint (sq : Sqrt) (self : Ent) (heap : List Ent)
    (obstacles : List (Int × Int)) : Except String (Option (Q × Q)) :=
  match self.target with
  | none => .ok none
  | some tid =>
      match getObj heap tid with
      | none => .error "AttributeError: dangling target reference"
      | some tgt =>
          let step := fun (best : Option ((Q × Q) × Q)) (wp : Q × Q) =>
            let dist := tgt.distance_to_point sq wp
            match best with
            | none => some (wp, dist)
            | some (bwp, bdist) =>
                if dist < bdist then some (wp, dist) else some (bwp, bdist)
          .ok (((self.get_valid_waypoints obstacles).foldl step none).map
            Prod.fst)

/-- `Troop.move_towards`: step toward the chosen waypoint centre by
`speed * dt`, clamped not to overshoot.  (The waypoint centre is never equal
to the current position, so the normalisation never divides by zero.) -/
def Ent.troop_move_towards (sq : Sqrt) (self : Ent) (heap : List Ent)
    (obstacles : List (Int × Int)) (ticket_time : Q) : Except String Ent :=
  match self.target with
  | none => .ok self
  | some _ => do
      let wp? ← self.get_target_waypoint sq heap obstacles
      match wp? with
      | none => .ok self
      | some wp =>
          let dx := wp.1 - self.x
          let dy := wp.2 - self.y
          let max_dist := sq (dx * dx + dy * dy)
          let try_dist0 := self.speed * ticket_time
          let try_dist := if max_dist < try_dist0 then max_dist else try_dist0
          .ok { self with x := self.x + dx / max_dist * try_dist
                          y := self.y + dy / max_dist * try_dist }

/-- `Troop.update`. -/
def Ent.troop_update (sq : Sqrt) (heap : List Ent) (entities : List Ent)
    (tick_time : Q) (self : Ent) : Except String Ent :=
  if self.life ≤ 0 then
    .ok { self with active := false }
  else if 0 < self.delay then
    .ok { self with state := StateType.idle, cooldown := 0
                    delay := self.delay - tick_time }
  else do
    let self1 ←
      match self.target with
      | some tid =>
          match getObj heap tid with
          | none => Except.error "AttributeError: dangling target reference"
          | some tgt =>
              if self.troop_in_range sq tgt ∧ 0 < tgt.life then
                pure { self with state := StateType.attacking }
              else
                pure { self with state := StateType.moving }
      | none => pure { self with state := StateType.moving }
    let self2 ←
      match self1.target with
      | some tid =>
          match getObj heap tid with
          | none => Except.error "AttributeError: dangling target reference"
          | some tgt =>
              if tgt.life ≤ 0 ∨ ¬ tgt.active then
                pure { self1 with target := none, state := StateType.moving }
              else
                pure self1
      | none => pure self1
    .ok (self2.troop_look_for_target sq entities)

/-- `Spell.update`. -/
def Ent.spell_update (tick_time : Q) (self : Ent) : Ent :=
  if self.duration ≤ 0 then { self with active := false }
  else { self with duration := self.duration - tick_time }

/-- `Projectile.update`: refresh `target_pos` from the (possibly dead but
still referenced) target object; keep the last value when `target is None`. -/
def Ent.projectile_update (heap : List Ent) (self : Ent) : Except String Ent :=
  match self.target with
  | none => .ok self
  | some tid =>
      match getObj heap tid with
      | none => .error "AttributeError: dangling target reference"
      | some tgt => .ok { self with target_pos := some (tgt.x, tgt.y) }

/-- `AreaProjectile.update`: while within `radius` of the target's current
position, record every hostile active troop/tower within `radius` of the
projectile (object identity deduplication on `troops_hit`). -/
def Ent.area_projectile_update (sq : Sqrt) (heap : List Ent)
    (entities : List Ent) (self : Ent) : Except String Ent :=
  match self.target with
  | none => .error "AttributeError: target is None"
  | some tid =>
      match getObj heap tid with
      | none => .error "AttributeError: dangling target reference"
      | some tgt =>
          let dx := tgt.x - self.x
          let dy := tgt.y - self.y
          let dist := sq (dx * dx + dy * dy)
          if dist < self.radius then
            .ok (entities.foldl (fun s e =>
              if !(e.owner == s.owner) && e.active &&
                 (e.type == EntityType.troop || e.type == EntityType.tower) &&
                 decide (sq ((e.x - s.x) * (e.x - s.x) +
                             (e.y - s.y) * (e.y - s.y)) ≤ s.radius) then
                if e.entity_id ∈ s.troops_hit then s
                else { s with troops_hit := s.troops_hit ++ [e.entity_id] }
              else s) self)
          else .ok self

/-- Dispatch of the `update` phase over the dynamic entity class. -/
def Ent.update (sq : Sqrt) (heap : List Ent) (entities : List Ent)
    (tick_time : Q) (self : Ent) : Except String Ent :=
  match self.type with
  | EntityType.tower => self.tower_update sq heap entities
  | EntityType.troop => self.troop_update sq heap entities tick_time
  | EntityType.spell => .ok (self.spell_update tick_time)
  | EntityType.projectile =>
      if self.is_area then self.area_projectile_update sq heap entities
      else self.projectile_update heap

/-! ## Board (`ClashLib/Clash.py`) -/

/-- The state of `Board`, together with the process-global entity-id counter
(`_next_entity_id` holds the last id handed out by `get_next_id`).
As explained in the header, `heap` is the Python object heap (append-only),
while `entities`, `new_entities` and `towers` hold object references (ids). -/
structure Board where
  width : Nat
  height : Nat
  player_id : String
  heap : List Ent
  entities : List Nat
  new_entities : List Nat
  towers : List Nat
  obstacles : List (Int × Int)
  counter : Nat
deriving DecidableEq

/-- One rectangular block of `Board.setup_obstacles` (`(columna, fila)`
pairs, rows `fila0 ≤ fila < fila0+nf`, columns `col0 ≤ col < col0+nc`). -/
def obstacleBlock (fila0 nf col0 nc : Nat) : List (Int × Int) :=
  (List.range' fila0 nf).flatMap (fun fila =>
    (List.range' col0 nc).map (fun col => ((col : Int), (fila : Int))))

/-- `Board.setup_obstacles`: the river (rows 15-16 minus the two bridges)
plus the six tower footprints. -/
def setup_obstacles : List (Int × Int) :=
  let river := (List.range' 15 2).flatMap (fun fila =>
    ((List.range 18).filter (fun col =>
      !((2 ≤ col && col ≤ 4) || (13 ≤ col && col ≤ 15)))).map
      (fun col => ((col : Int), (fila : Int))))
  river ++ obstacleBlock 1 4 7 4 ++ obstacleBlock 5 3 2 3 ++
    obstacleBlock 5 3 13 3 ++ obstacleBlock 27 4 7 4 ++
    obstacleBlock 24 3 2 3 ++ obstacleBlock 24 3 13 3

/-- `Board.setup_towers`: the six towers, created in source order through the
global id counter. -/
def setup_towers (counter : Nat) : Except String (List Ent × Nat) := do
  let (torre_principal_sup, c1) ← mkTower (17/2) (5/2) (some "1") TowerType.central counter
  let (torre_izq_sup, c2) ← mkTower 3 6 (some "1") TowerType.lateral c1
  let (torre_der_sup, c3) ← mkTower 14 6 (some "1") TowerType.lateral c2
  let (torre_principal_inf, c4) ← mkTower (17/2) (57/2) (some "2") TowerType.central c3
  let (torre_izq_inf, c5) ← mkTower 3 25 (some "2") TowerType.lateral c4
  let (torre_der_inf, c6) ← mkTower 14 25 (some "2") TowerType.lateral c5
  .ok ([torre_principal_sup, torre_izq_sup, torre_der_sup,
        torre_principal_inf, torre_izq_inf, torre_der_inf], c6)

/-- `Board.__init__` (given the value of the global id counter at
construction time). -/
def Board.init (player_id : String) (counter : Nat) : Except String Board := do
  let (towers, counter') ← setup_towers counter
  .ok { width := 18, height := 32, player_id := player_id
        heap := towers, entities := towers.map Ent.entity_id
        new_entities := [], towers := towers.map Ent.entity_id
        obstacles := setup_obstacles, counter := counter' }

/-- `Board.is_my_area`: player "1" owns rows 0-15, player "2" rows 16-31. -/
def Board.is_my_area (b : Board) (grid_position : Int × Int) : Bool :=
  let fila := grid_position.2
  if b.player_id = "1" then decide (0 ≤ fila ∧ fila < 16)
  else if b.player_id = "2" then decide (16 ≤ fila ∧ fila < 32)
  else false

/-- `Board.is_valid_placement`: inside the grid and not on an obstacle. -/
def Board.is_valid_placement (b : Board) (grid_position : Int × Int) : Bool :=
  let columna := grid_position.1
  let fila := grid_position.2
  if columna < 0 ∨ (b.width : Int) ≤ columna ∨ fila < 0 ∨ (b.height : Int) ≤ fila
  then false
  else if (columna, fila) ∈ b.obstacles then false
  else true

/-- `Board.add_new_entity` (the `add_entity` callback handed to `execute`):
the freshly constructed object joins the heap and its id is staged in
`new_entities`; `counter'` is the counter value after the construction. -/
def Board.add_new_entity (b : Board) (e : Ent) (counter' : Nat) : Board :=
  { b with heap := b.heap ++ [e], new_entities := b.new_entities ++ [e.entity_id]
           counter := counter' }

/-- `Tower.execute`: tick the cooldown and, when ready and the target is
alive, fire a `Projectile(speed=5.0)` and reset the cooldown. -/
def Ent.tower_execute (sq : Sqrt) (tick_time : Q) (b : Board) (self : Ent) :
    Except String Board := do
  let self1 := { self with cooldown := self.cooldown - tick_time }
  match self1.target with
  | none => .ok { b with heap := setObj b.heap self1 }
  | some tid =>
      if self1.cooldown ≤ 0 then
        match getObj b.heap tid with
        | none => .error "AttributeError: dangling target reference"
        | some tgt =>
            if 0 < tgt.life then do
              let (p, counter') ← mkProjectile b.heap self1.x self1.y self1.owner
                5 self1.target self1.damage b.counter
              let b1 := b.add_new_entity p counter'
              let self2 := { self1 with cooldown := self1.hit_speed }
              .ok { b1 with heap := setObj b1.heap self2 }
            else .ok { b with heap := setObj b.heap self1 }
      else .ok { b with heap := setObj b.heap self1 }

/-- `Caballero.attack` / `Mosquetera.attack` / `Mago.attack`, dispatched on
the concrete troop class.  The knight writes damage directly; the ranged
troops stage a (possibly area) projectile. -/
def Ent.troop_attack (sq : Sqrt) (b : Board) (self : Ent) : Except String Board :=
  match self.troop_kind with
  | TroopKind.caballero =>
      match self.target with
      | none => .error "AttributeError: target is None"
      | some tid =>
          match getObj b.heap tid with
          | none => .error "AttributeError: dangling target reference"
          | some tgt =>
              if 0 < tgt.life then
                .ok { b with heap := damageObj b.heap tid self.damage }
              else .ok b
  | TroopKind.mosquetera => do
      let (p, counter') ← mkProjectile b.heap self.x self.y self.owner
        self.projectile_speed self.target self.damage b.counter
      .ok (b.add_new_entity p counter')
  | TroopKind.mago => do
      let (p, counter') ← mkAreaProjectile b.heap self.x self.y self.owner
        self.projectile_speed self.target self.damage (3/2) b.counter
      .ok (b.add_new_entity p counter')

/-- `Troop.execute`. -/
def Ent.troop_execute (sq : Sqrt) (tick_time : Q) (b : Board) (self : Ent) :
    Except String Board :=
  match self.state with
  | StateType.attacking => do
      let self1 := { self with cooldown := self.cooldown - tick_time }
      if self1.cooldown ≤ 0 then do
        let b1 ← self1.troop_attack sq b
        let self2 := { self1 with cooldown := self1.hit_speed }
        .ok { b1 with heap := setObj b1.heap self2 }
      else .ok { b with heap := setObj b.heap self1 }
  | StateType.moving => do
      let self1 ← self.troop_move_towards sq b.heap b.obstacles tick_time
      .ok { b with heap := setObj b.heap self1 }
  | StateType.idle => .ok b

/-- `Projectile.move_towards`. -/
def Ent.projectile_move_towards (sq : Sqrt) (tick_time : Q) (self : Ent) :
    Except String Ent :=
  match self.target_pos with
  | none => .error "TypeError: target_pos is None"
  | some tp =>
      let dx := tp.1 - self.x
      let dy := tp.2 - self.y
      let max_dist := sq (dx * dx + dy * dy)
      let try_dist0 := self.speed * tick_time
      let reached := if max_dist ≤ try_dist0 then true else self.reached_target
      let try_dist := if max_dist ≤ try_dist0 then max_dist else try_dist0
      if max_dist < 1/1000000 then
        .ok { self with reached_target := reached }
      else
        .ok { self with reached_target := reached
                        x := self.x + dx / max_dist * try_dist
                        y := self.y + dy / max_dist * try_dist }

/-- Damage every still-active victim of an `AreaProjectile` in list order. -/
def damageVictims (heap : List Ent) (victims : List Nat) (amount : Q) :
    Except String (List Ent) :=
  match victims with
  | [] => .ok heap
  | v :: rest =>
      match getObj heap v with
      | none => .error "AttributeError: dangling victim reference"
      | some tgt =>
          if tgt.active then damageVictims (damageObj heap v amount) rest amount
          else damageVictims heap rest amount

/-- `Projectile.execute` and `AreaProjectile.execute` (dispatch on
`is_area`).  A plain projectile delivers only if its target is still active;
an area projectile damages its recorded victims unconditionally on arrival.
Both expire strictly after `max_duration`. -/
def Ent.projectile_execute (sq : Sqrt) (tick_time : Q) (b : Board)
    (self : Ent) : Except String Board :=
  if ¬ self.active then .ok b
  else do
    let self1 := { self with elapsed_time := self.elapsed_time + tick_time }
    let self2 ← self1.projectile_move_towards sq tick_time
    match self2.target_pos with
    | none => .error "TypeError: target_pos is None"
    | some tp =>
        let dx := tp.1 - self2.x
        let dy := tp.2 - self2.y
        let near := sq (dx * dx + dy * dy) < 1/20
        if self2.is_area then do
          let (heap1, self3) ←
            if near ∨ self2.reached_target then do
              let h ← damageVictims b.heap self2.troops_hit self2.damage
              pure (h, { self2 with active := false })
            else pure (b.heap, self2)
          let self4 := if self3.max_duration < self3.elapsed_time then
            { self3 with active := false } else self3
          .ok { b with heap := setObj heap1 self4 }
        else do
          let (heap1, self3) ←
            match self2.target with
            | some tid =>
                if near ∨ self2.reached_target then
                  match getObj b.heap tid with
                  | none => Except.error "AttributeError: dangling target reference"
                  | some tgt =>
                      if tgt.active then
                        pure (damageObj b.heap tid self2.damage,
                              { self2 with active := false })
                      else pure (b.heap, self2)
                else pure (b.heap, self2)
            | none => pure (b.heap, self2)
          let self4 := if self3.max_duration < self3.elapsed_time then
            { self3 with active := false } else self3
          .ok { b with heap := setObj heap1 self4 }

/-- `Spell.execute` does nothing. -/
def Ent.execute (sq : Sqrt) (tick_time : Q) (b : Board) (self : Ent) :
    Except String Board :=
  match self.type with
  | EntityType.tower => self.tower_execute sq tick_time b
  | EntityType.troop => self.troop_execute sq tick_time b
  | EntityType.spell => .ok b
  | EntityType.projectile => self.projectile_execute sq tick_time b

/-- The live objects of the board's `entities` list, in list order. -/
def Board.liveEnts (b : Board) : List Ent :=
  b.entities.filterMap (getObj b.heap)

/-- Phase A of `Board.update`: `entity.update(tick_time, self.entities)` for
every entity in list order.  Each step reads the current heap (earlier
updates in the same pass are visible, as in Python). -/
def Board.updatePhase (sq : Sqrt) (tick_time : Q) (b : Board) :
    Except String Board :=
  b.entities.foldl (fun acc eid =>
    acc.bind (fun bd =>
      match getObj bd.heap eid with
      | none => .ok bd
      | some e =>
          (e.update sq bd.heap bd.liveEnts tick_time).map
            (fun e' => { bd with heap := setObj bd.heap e' }))) (.ok b)

/-- Phase B of `Board.update`: `entity.execute(tick_time, obstacles,
add_new_entity)` for every entity in list order, again against the current
heap. -/
def Board.executePhase (sq : Sqrt) (tick_time : Q) (b : Board) :
    Except String Board :=
  b.entities.foldl (fun acc eid =>
    acc.bind (fun bd =>
      match getObj bd.heap eid with
      | none => .ok bd
      | some e => e.execute sq tick_time bd)) (.ok b)

/-- Phase C of `Board.update`: drop inactive entities from `entities` and
`towers`, then append the staged `new_entities`. -/
def Board.reapAndStage (b : Board) : Board :=
  let entities' := b.entities.filter (fun eid =>
    ((getObj b.heap eid).map Ent.active).getD false)
  let towers' := b.towers.filter (fun eid =>
    ((getObj b.heap eid).map Ent.active).getD false)
  { b with entities := entities' ++ b.new_entities, towers := towers'
           new_entities := [] }

/-- `Board.update`: the full two-phase tick plus reaping and staging. -/
def Board.update (sq : Sqrt) (tick_time : Q) (b : Board) :
    Except String Board := do
  let bA ← b.updatePhase sq tick_time
  let bB ← bA.executePhase sq tick_time
  .ok bB.reapAndStage

/-- `Board.create_entity_by_type`: `None` for an unknown entity type (the
constructors raise `ValueError` on out-of-bounds coordinates). -/
def Board.create_entity_by_type (b : Board) (entity_type : String)
    (position : Q × Q) (player_id : Option String) :
    Except String (Option (Ent × Nat)) :=
  if entity_type = "Caballero" then
    (mkCaballero position.1 position.2 player_id b.counter).map some
  else if entity_type = "Mago" then
    (mkMago position.1 position.2 player_id b.counter).map some
  else if entity_type = "Mosquetera" then
    (mkMosquetera position.1 position.2 player_id b.counter).map some
  else
    .ok none

/-- `Board.add_entity`: create by type and append directly to `entities`
(no staging, no placement validation). -/
def Board.add_entity (b : Board) (entity_type : String)
    (grid_position : Q × Q) (player_id : Option String) :
    Except String Board := do
  let created ← b.create_entity_by_type entity_type grid_position player_id
  match created with
  | none => .ok b
  | some (e, counter') =>
      .ok { b with heap := b.heap ++ [e]
                   entities := b.entities ++ [e.entity_id]
                   counter := counter' }

/-- `ClashSimulation.process_event`: only `spawn_unit` events with both an
`entity_type` and a `grid_position` in the payload do anything. -/
def process_event (e : Event) (b : Board) : Except String Board :=
  if e.event_type = "spawn_unit" then
    match e.data.entity_type, e.data.grid_position with
    | some entity_type, some grid_position =>
        b.add_entity entity_type grid_position e.data.player_id
    | _, _ => .ok b
  else .ok b

/-- `GameTimeline.execute_tick`: update the board, process the events of the
closed window `[simulation_time, simulation_time + tick_time]`, then advance
`simulation_time`. -/
def execute_tick (sq : Sqrt) (tl : GameTimeline) (b : Board) :
    Except String (GameTimeline × Board) := do
  let b1 ← b.update sq tl.tick_time
  let drained := tl.get_events_in_range tl.simulation_time
    (tl.simulation_time + tl.tick_time)
  let b2 ← drained.foldl (fun acc e => acc.bind (process_event e)) (.ok b1)
  .ok ({ tl with simulation_time := tl.simulation_time + tl.tick_time }, b2)

/-- Iterate `execute_tick` a fixed number of ticks, as the game driver's
catch-up loop does. -/
def runTicks (sq : Sqrt) (n : Nat) (tl : GameTimeline) (b : Board) :
    Except String (GameTimeline × Board) :=
  match n with
  | 0 => .ok (tl, b)
  | n + 1 => do
      let (tl1, b1) ← execute_tick sq tl b
      runTicks sq n tl1 b1

/-! ## Local placement (`Clash.handle_board_click`) -/

/-- `Clash.handle_board_click`: check the owner's area, then placement
validity, then try to charge the selected card; only a successful charge
emits a `spawn_unit` event (delay 0.2) and the rejection paths of the two
position checks clear the selected card. -/
def handle_board_click (b : Board) (m : Menu) (grid_pos : Int × Int)
    (synced_time initial_timestamp : Q) :
    Except String (Menu × Option Event) :=
  if ¬ b.is_my_area grid_pos then
    .ok ({ m with selected_card := none }, none)
  else if ¬ b.is_valid_placement grid_pos then
    .ok ({ m with selected_card := none }, none)
  else do
    let (m1, used_card) ← m.use_selected_card
    match used_card with
    | some card_type =>
        .ok (m1, some (Event.make "spawn_unit" (synced_time - initial_timestamp)
          (1/5)
          { entity_type := some card_type
            grid_position := some ((grid_pos.1 : Q), (grid_pos.2 : Q))
            player_id := some b.player_id }))
    | none => .ok (m1, none)

/-! ## Claim C2: timeline drain order and exactly-once processing -/

instance : IsTotal Event eventLE :=
  ⟨fun a b => by
    rw [eventLE, eventLE, Q.le_iff, Q.le_iff]
    exact le_total _ _⟩

instance : IsTrans Event eventLE :=
  ⟨fun a b c hab hbc => by
    rw [eventLE, Q.le_iff] at hab hbc ⊢
    exact le_trans hab hbc⟩

/-- The tick window predicate of `get_events_in_range` at tick index `k`
(simulation started at time 0, tick duration `dt`). -/
def inWindow (dt : Q) (k : Nat) (e : Event) : Bool :=
  decide ((k : Q) * dt ≤ e.aparition_time) &&
    decide (e.aparition_time ≤ (k : Q) * dt + dt)

/-- Running `n` bare ticks advances the clock and logs, per tick `k`,
exactly the events of the window `[s + k*dt, s + k*dt + dt]`. -/
theorem runTLOps_ticks (n : Nat) : ∀ (tl : GameTimeline),
    runTLOps tl (List.replicate n TLOp.tick) =
      ({ tl with simulation_time :=
          tl.simulation_time + (n : Q) * tl.tick_time },
       (List.range n).map (fun (k : Nat) => tl.events.filter (fun e =>
          decide (tl.simulation_time + (k : Q) * tl.tick_time ≤ e.aparition_time) &&
          decide (e.aparition_time ≤
            tl.simulation_time + (k : Q) * tl.tick_time + tl.tick_time)))) := by
  induction n with
  | zero =>
      intro tl
      have h : tl.simulation_time + ((0 : Nat) : Q) * tl.tick_time = tl.simulation_time := by
        rw [Q.eq_iff]
        simp [Q.toRat_add, Q.toRat_mul, Q.toRat_natCast]
      simp only [List.replicate, runTLOps, List.range_zero, List.map_nil, Nat.cast_zero] at h ⊢
      rw [h]
  | succ n ih =>
      intro tl
      have htick : tl.tickTL =
          ({ tl with simulation_time := tl.simulation_time + tl.tick_time },
           tl.events.filter (fun e =>
             decide (tl.simulation_time ≤ e.aparition_time) &&
             decide (e.aparition_time ≤ tl.simulation_time + tl.tick_time))) := rfl
      show runTLOps tl (TLOp.tick :: List.replicate n TLOp.tick) = _
      simp only [runTLOps, htick, ih]
      rw [Prod.mk.injEq]
      refine ⟨?_, ?_⟩
      · have hT : tl.simulation_time + tl.tick_time + (n : Q) * tl.tick_time =
            tl.simulation_time + ((n + 1 : Nat) : Q) * tl.tick_time := by
          rw [Q.eq_iff]
          simp only [Q.toRat_add, Q.toRat_mul, Q.toRat_natCast]
          push_cast
          ring
        rw [hT]
      · rw [List.range_succ_eq_map, List.map_cons, List.map_map]
        refine congrArg₂ _ ?_ ?_
        · apply List.filter_congr
          intro e _
          have h0 : tl.simulation_time + ((0 : Nat) : Q) * tl.tick_time = tl.simulation_time := by
            rw [Q.eq_iff]
            simp [Q.toRat_add, Q.toRat_mul, Q.toRat_natCast]
          rw [h0]
        · apply List.map_congr_left
          intro k _
          simp only [Function.comp_apply]
          apply List.filter_congr
          intro e _
          have h1 : tl.simulation_time + tl.tick_time + (k : Q) * tl.tick_time =
              tl.simulation_time + ((Nat.succ k : Nat) : Q) * tl.tick_time := by
            rw [Q.eq_iff]
            simp only [Q.toRat_add, Q.toRat_mul, Q.toRat_natCast]
            push_cast
            ring
          rw [h1]

/-- Counting helper: a predicate that splits into two pointwise-disjoint
pieces splits the count. -/
theorem countP_split {α : Type} (l : List α) (p q r : α → Bool)
    (h : ∀ a ∈ l, (r a = true ↔ (p a = true ∨ q a = true)) ∧
      ¬(p a = true ∧ q a = true)) :
    l.countP p + l.countP q = l.countP r := by
  induction l with
  | nil => simp
  | cons x xs ih =>
      have hx := h x (List.mem_cons_self x xs)
      have ihx := ih (fun a ha => h a (List.mem_cons_of_mem x ha))
      by_cases hp : p x = true <;> by_cases hq : q x = true
      · exact absurd ⟨hp, hq⟩ hx.2
      · have hr : r x = true := hx.1.mpr (Or.inl hp)
        simp [List.countP_cons, hp, hq, hr]
        omega
      · have hr : r x = true := hx.1.mpr (Or.inr hq)
        simp [List.countP_cons, hp, hq, hr]
        omega
      · have hr : r x = false := by
          rcases hr' : r x with _ | _
          · rfl
          · rcases hx.1.mp hr' with h' | h'
            · exact absurd h' hp
            · exact absurd h' hq
        simp [List.countP_cons, hp, hq, hr]
        omega

/-- Add a batch of events up front (`add_event` folded over the batch). -/
def addAll (tl : GameTimeline) (evs : List Event) : GameTimeline :=
  evs.foldl GameTimeline.add_event tl

theorem addAll_simulation_time (evs : List Event) : ∀ (tl : GameTimeline),
    (addAll tl evs).simulation_time = tl.simulation_time ∧
    (addAll tl evs).tick_time = tl.tick_time := by
  induction evs with
  | nil => intro tl; exact ⟨rfl, rfl⟩
  | cons e rest ih => intro tl; exact ih (tl.add_event e)

theorem addAll_perm (evs : List Event) : ∀ (tl : GameTimeline),
    (addAll tl evs).events.Perm (tl.events ++ evs) := by
  induction evs with
  | nil => intro tl; rw [addAll, List.foldl_nil, List.append_nil]
  | cons e rest ih =>
      intro tl
      have h1 : (addAll (tl.add_event e) rest).events.Perm
          ((tl.add_event e).events ++ rest) := ih (tl.add_event e)
      have h2 : (tl.add_event e).events.Perm (tl.events ++ [e]) :=
        List.perm_insertionSort eventLE (tl.events ++ [e])
      refine List.Perm.trans h1 ?_
      refine List.Perm.trans (h2.append_right rest) ?_
      rw [List.append_assoc]
      exact List.Perm.refl _

theorem addAll_sorted (evs : List Event) : ∀ (tl : GameTimeline),
    List.Sorted eventLE tl.events →
    List.Sorted eventLE (addAll tl evs).events := by
  induction evs with
  | nil => intro tl h; exact h
  | cons e rest ih =>
      intro tl _
      exact ih (tl.add_event e) (List.sorted_insertionSort eventLE _)

/-- The window-count identity: summed over `n` ticks, the closed windows
`[k*dt, k*dt + dt]` count every event of `[0, n*dt]` exactly once, provided
no apparition time sits on an interior boundary `k*dt` (`1 ≤ k < n`). -/
theorem window_count (evs : List Event) (dt : Q) (hdt : (0 : Q) < dt) :
    ∀ (n : Nat), 1 ≤ n →
    (∀ e ∈ evs, ∀ k : Nat, 1 ≤ k → k < n → e.aparition_time ≠ (k : Q) * dt) →
    ((List.range n).map (fun (k : Nat) => evs.countP (fun e =>
        decide ((0 : Q) + (k : Q) * dt ≤ e.aparition_time) &&
        decide (e.aparition_time ≤ (0 : Q) + (k : Q) * dt + dt)))).sum
      = evs.countP (fun e => decide ((0 : Q) ≤ e.aparition_time) &&
          decide (e.aparition_time ≤ (n : Q) * dt)) := by
  have hdt' : (0 : ℚ) < dt.toRat := by
    have := (Q.lt_iff 0 dt).mp hdt
    rwa [Q.toRat_ofNat] at this
  intro n
  induction n with
  | zero => intro h; omega
  | succ n ih =>
      intro _ hb
      by_cases hn : 1 ≤ n
      · rw [List.range_succ, List.map_append, List.sum_append,
          ih hn (fun e he k hk1 hk2 => hb e he k hk1 (by omega))]
        simp only [List.map_cons, List.map_nil, List.sum_cons, List.sum_nil,
          Nat.add_zero]
        apply countP_split
        intro e he
        have hbe : e.aparition_time ≠ (n : Q) * dt := by
          by_cases h0 : n = 0
          · omega
          · exact hb e he n (by omega) (by omega)
        have hbe' : e.aparition_time.toRat ≠ (n : ℚ) * dt.toRat := by
          intro hc
          apply hbe
          rw [Q.eq_iff, Q.toRat_mul, Q.toRat_natCast]
          exact hc
        simp only [Bool.and_eq_true, decide_eq_true_eq, Q.le_iff, Q.toRat_add,
          Q.toRat_mul, Q.toRat_natCast, Q.toRat_ofNat, Q.toRat_zero]
        push_cast
        constructor
        · constructor
          · rintro ⟨h1, h2⟩
            by_cases hle : e.aparition_time.toRat ≤ (n : ℚ) * dt.toRat
            · left; exact ⟨h1, by linarith⟩
            · right
              push_neg at hle
              constructor
              · linarith
              · linarith
          · rintro (⟨h1, h2⟩ | ⟨h1, h2⟩)
            · constructor
              · exact h1
              · nlinarith [hdt', Nat.cast_nonneg (α := ℚ) n]
            · constructor
              · nlinarith [hdt', Nat.cast_nonneg (α := ℚ) n]
              · linarith
        · rintro ⟨⟨_, h2⟩, ⟨h3, _⟩⟩
          exact hbe' (le_antisymm h2 (by linarith))
      · have hn0 : n = 0 := by omega
        subst hn0
        simp only [List.range_succ, List.range_zero, List.nil_append,
          List.map_cons, List.map_nil, List.sum_cons, List.sum_nil, Nat.add_zero]
        apply List.countP_congr
        intro e _
        simp only [Bool.and_eq_true, decide_eq_true_eq, Q.le_iff, Q.toRat_add,
          Q.toRat_mul, Q.toRat_natCast, Q.toRat_ofNat, Q.toRat_zero]
        push_cast
        constructor
        · rintro ⟨h1, h2⟩
          exact ⟨by linarith, by linarith⟩
        · rintro ⟨h1, h2⟩
          exact ⟨by linarith, by linarith⟩

/-- An empty `spawn_unit` payload for timeline-level tests. -/
def emptyData : SpawnData := { entity_type := none, grid_position := none, player_id := none }

/-- A timeline with tick duration 1/25 starting at simulation time 0. -/
def tl25 : GameTimeline := { simulation_time := 0, tick_time := 1/25, events := [] }

/-- C2 counterexample: one event with `aparition_time = 1/25` (exactly the
boundary between the first two tick windows) is drained in BOTH windows, so
two ticks covering `[0, 2/25]` drain 2 events although only 1 event with
`aparition_time ≤ 2/25` was added — the windows of
`get_events_in_range(sim_time, sim_time + tick_dt)` are closed on both ends
and consecutive windows share their boundary point, and events are never
removed from the timeline. -/
theorem c2_counterexample :
    (runTLOps tl25 [TLOp.add (Event.make "spawn_unit" 0 (1/25) emptyData),
       TLOp.tick, TLOp.tick]).2.flatten.length = 2 ∧
    ([Event.make "spawn_unit" 0 (1/25) emptyData].filter (fun e =>
       decide ((0 : Q) ≤ e.aparition_time) &&
       decide (e.aparition_time ≤ (2 : Q) * tl25.tick_time))).length = 1 := by
  decide

/-- Claim C2 (amended): with all events added before ticking, every per-tick
batch returned by `get_events_in_range` is non-decreasing in
`aparition_time`, and over `n ≥ 1` ticks of duration `dt` from time 0 the
total number of drained events equals the number of added events with
`aparition_time ∈ [0, n*dt]` — provided that no apparition time equals an
interior tick boundary `k*dt` (`1 ≤ k ≤ n-1`); a boundary event is drained
twice, as `c2_counterexample` shows. -/
theorem c2_amended_drain (evs : List Event) (dt : Q) (n : Nat)
    (hdt : (0 : Q) < dt) (hn : 1 ≤ n)
    (hb : ∀ e ∈ evs, ∀ k : Nat, 1 ≤ k → k < n →
      e.aparition_time ≠ (k : Q) * dt) :
    (∀ batch ∈ (runTLOps (addAll ⟨0, dt, []⟩ evs)
        (List.replicate n TLOp.tick)).2, batch.Pairwise eventLE) ∧
    (runTLOps (addAll ⟨0, dt, []⟩ evs)
        (List.replicate n TLOp.tick)).2.flatten.length
      = evs.countP (fun e => decide ((0 : Q) ≤ e.aparition_time) &&
          decide (e.aparition_time ≤ (n : Q) * dt)) := by
  have htime1 : (addAll ⟨0, dt, []⟩ evs).simulation_time = (0 : Q) :=
    (addAll_simulation_time evs ⟨0, dt, []⟩).1
  have htime2 : (addAll ⟨0, dt, []⟩ evs).tick_time = dt :=
    (addAll_simulation_time evs ⟨0, dt, []⟩).2
  have hperm : (addAll ⟨0, dt, []⟩ evs).events.Perm evs := by
    have h := addAll_perm evs ⟨0, dt, []⟩
    simpa using h
  have hsorted : List.Sorted eventLE (addAll ⟨0, dt, []⟩ evs).events :=
    addAll_sorted evs ⟨0, dt, []⟩ (List.sorted_nil)
  rw [runTLOps_ticks]
  constructor
  · intro batch hbatch
    simp only [List.mem_map] at hbatch
    obtain ⟨k, _, hk⟩ := hbatch
    exact hk ▸ List.Pairwise.filter _ hsorted
  · rw [List.length_flatten, List.map_map]
    have hstep : ∀ (k : Nat),
        ((addAll ⟨0, dt, []⟩ evs).events.filter (fun e =>
          decide ((addAll ⟨0, dt, []⟩ evs).simulation_time + (k : Q) *
              (addAll ⟨0, dt, []⟩ evs).tick_time ≤ e.aparition_time) &&
          decide (e.aparition_time ≤ (addAll ⟨0, dt, []⟩ evs).simulation_time +
              (k : Q) * (addAll ⟨0, dt, []⟩ evs).tick_time +
              (addAll ⟨0, dt, []⟩ evs).tick_time))).length
        = evs.countP (fun e =>
            decide ((0 : Q) + (k : Q) * dt ≤ e.aparition_time) &&
            decide (e.aparition_time ≤ (0 : Q) + (k : Q) * dt + dt)) := by
      intro k
      rw [htime1, htime2, ← List.countP_eq_length_filter]
      exact hperm.countP_eq _
    have hmap : (List.range n).map (List.length ∘ fun (k : Nat) =>
        (addAll ⟨0, dt, []⟩ evs).events.filter (fun e =>
          decide ((addAll ⟨0, dt, []⟩ evs).simulation_time + (k : Q) *
              (addAll ⟨0, dt, []⟩ evs).tick_time ≤ e.aparition_time) &&
          decide (e.aparition_time ≤ (addAll ⟨0, dt, []⟩ evs).simulation_time +
              (k : Q) * (addAll ⟨0, dt, []⟩ evs).tick_time +
              (addAll ⟨0, dt, []⟩ evs).tick_time)))
        = (List.range n).map (fun (k : Nat) => evs.countP (fun e =>
            decide ((0 : Q) + (k : Q) * dt ≤ e.aparition_time) &&
            decide (e.aparition_time ≤ (0 : Q) + (k : Q) * dt + dt))) := by
      apply List.map_congr_left
      intro k _
      exact hstep k
    rw [hmap, window_count evs dt hdt n hn hb]

/-- A boundary-free event for the C2 witness (apparition `3/50`). -/
def c2ev : Event := Event.make "spawn_unit" (1/50) (1/25) emptyData

/-- Witness for `c2_amended_drain` at a concrete input. -/
theorem c2_amended_drain_witness :
    (∀ batch ∈ (runTLOps (addAll ⟨0, 1/25, []⟩ [c2ev])
        (List.replicate 2 TLOp.tick)).2, batch.Pairwise eventLE) ∧
    (runTLOps (addAll ⟨0, 1/25, []⟩ [c2ev])
        (List.replicate 2 TLOp.tick)).2.flatten.length
      = [c2ev].countP (fun e => decide ((0 : Q) ≤ e.aparition_time) &&
          decide (e.aparition_time ≤ ((2 : Nat) : Q) * (1/25))) :=
  c2_amended_drain [c2ev] (1/25) 2 (by decide) (by decide)
    (by
      intro e he k h1 h2
      have hk : k = 1 := by omega
      subst hk
      simp only [List.mem_singleton] at he
      subst he
      decide)

/-! ## Claims C7 and C8: the elixir arbiter -/

/-- A user-level menu operation: an elixir resync at synced time `t`, or a
click selecting deck slot `idx` followed by an attempted placement
(`use_selected_card`). -/
inductive MenuOp where
  | upd (t : Q)
  | place (idx : Nat)
deriving DecidableEq

/-- Apply one menu operation. -/
def MenuOp.apply (m : Menu) : MenuOp → Except String Menu
  | MenuOp.upd t => m.update_elixir_synced t
  | MenuOp.place idx =>
      ({ m with selected_card := some idx }).use_selected_card.map Prod.fst

/-- Run a sequence of menu operations. -/
def runMenu (m : Menu) : List MenuOp → Except String Menu
  | [] => .ok m
  | op :: ops => (MenuOp.apply m op).bind (fun m' => runMenu m' ops)

/-- Update times are nondecreasing and bounded below by `t`. -/
def timesOK (t : Q) : List MenuOp → Prop
  | [] => True
  | MenuOp.upd u :: rest => t ≤ u ∧ timesOK u rest
  | MenuOp.place _ :: rest => timesOK t rest

instance instDecidableTimesOK : ∀ (t : Q) (ops : List MenuOp), Decidable (timesOK t ops)
  | _, [] => isTrue trivial
  | t, MenuOp.upd u :: rest =>
      have : Decidable (timesOK u rest) := instDecidableTimesOK u rest
      inferInstanceAs (Decidable (t ≤ u ∧ timesOK u rest))
  | t, MenuOp.place _ :: rest => instDecidableTimesOK t rest

/-- `elixir_wasted` never decreases under any menu operation (no hypotheses:
the rebalancing branch only ever raises it). -/
theorem wasted_mono_step (m : Menu) (op : MenuOp) (m' : Menu)
    (h : MenuOp.apply m op = .ok m') :
    m.elixir_wasted.toRat ≤ m'.elixir_wasted.toRat := by
  cases op with
  | upd t =>
      simp only [MenuOp.apply, Menu.update_elixir_synced] at h
      by_cases h0 : m.last_update_time = 0
      · simp only [if_pos h0] at h
        cases h
        exact le_refl _
      · simp only [if_neg h0] at h
        cases hg : m.game_start_time with
        | none => simp only [hg] at h; exact Except.noConfusion h
        | some start =>
            simp only [hg] at h
            by_cases hmax : m.initial_elixir + (t - start) / m.seconds_for_one_elixir -
                m.elixir_used - m.elixir_wasted > m.max_elixir
            · simp only [if_pos hmax] at h
              cases h
              simp only [Q.toRat_max, Q.toRat_zero]
              rw [le_max_iff]
              right
              have hmax' := (Q.lt_iff _ _).mp hmax
              simp only [Q.toRat_add, Q.toRat_sub, Q.toRat_div] at hmax' ⊢
              linarith
            · simp only [if_neg hmax] at h
              cases h
              simp only [Q.toRat_max, Q.toRat_zero]
              exact le_max_right _ _
  | place idx =>
      simp only [MenuOp.apply, Menu.use_selected_card, Except.map] at h
      cases hd : m.deck.get? idx with
      | none => simp only [hd] at h; exact Except.noConfusion h
      | some card =>
          simp only [hd] at h
          cases he : m.elixir with
          | none => simp only [he] at h; exact Except.noConfusion h
          | some e =>
              simp only [he] at h
              by_cases hc : card.cost_elixir ≤ e
              · simp only [if_pos hc] at h
                cases h
                exact le_refl _
              · simp only [if_neg hc] at h
                cases h
                exact le_refl _

/-- `elixir_wasted` never decreases over a run. -/
theorem runMenu_wasted_mono (ops : List MenuOp) : ∀ (m m' : Menu),
    runMenu m ops = .ok m' →
    m.elixir_wasted.toRat ≤ m'.elixir_wasted.toRat := by
  induction ops with
  | nil => intro m m' h; cases h; exact le_refl _
  | cons op rest ih =>
      intro m m' h
      simp only [runMenu] at h
      cases happ : MenuOp.apply m op with
      | error e => rw [happ] at h; cases h
      | ok m1 =>
          rw [happ] at h
          exact le_trans (wasted_mono_step m op m1 happ) (ih m1 m' h)

/-- The standing state facts of a connected menu after its (pinned) first
elixir resync: constants, a positive last update time, and the bookkeeping
identity `elixir = initial + generated - used - wasted` with everything in
range.  `generated` is only bounded by the clock here because the pinned
first call leaves it at 0. -/
def WeakInv (s : Q) (m : Menu) : Prop :=
  m.game_start_time = some s ∧
  m.initial_elixir = 7 ∧ m.max_elixir = 10 ∧ m.seconds_for_one_elixir = 3/2 ∧
  s.toRat ≤ m.last_update_time.toRat ∧
  0 < m.last_update_time.toRat ∧
  (∃ e, m.elixir = some e ∧
    e.toRat = 7 + m.generated_elixir.toRat - m.elixir_used.toRat -
      m.elixir_wasted.toRat ∧
    0 ≤ e.toRat ∧ e.toRat ≤ 10 ∧
    0 ≤ m.elixir_wasted.toRat ∧ 0 ≤ m.generated_elixir.toRat ∧
    m.generated_elixir.toRat ≤ (m.last_update_time.toRat - s.toRat) / (3 / 2)) ∧
  ∀ c ∈ m.deck, (0 : ℚ) ≤ c.cost_elixir.toRat

/-- After a non-pinned resync, `generated` equals the synced formula exactly. -/
def ExactInv (s : Q) (m : Menu) : Prop :=
  WeakInv s m ∧
  m.generated_elixir.toRat = (m.last_update_time.toRat - s.toRat) / (3 / 2)

theorem upd_step_exact (s : Q) (m : Menu) (u : Q) (m' : Menu)
    (hw : WeakInv s m) (hu : m.last_update_time.toRat ≤ u.toRat)
    (h : MenuOp.apply m (MenuOp.upd u) = .ok m') :
    ExactInv s m' ∧ m'.last_update_time = u := by
  obtain ⟨hg, hi, hmx, hsec, hsle, hlpos, ⟨e, he, heq, he0, he10, hw0, hg0, hgle⟩, hdeck⟩ := hw
  have hi' : m.initial_elixir.toRat = 7 := by
    rw [hi, show (7 : Q) = OfNat.ofNat 7 from rfl, Q.toRat_ofNat]
    norm_num
  have hmx' : m.max_elixir.toRat = 10 := by
    rw [hmx, show (10 : Q) = OfNat.ofNat 10 from rfl, Q.toRat_ofNat]
    norm_num
  have hl0 : ¬ m.last_update_time = 0 := by
    intro hc
    rw [hc, Q.toRat_zero] at hlpos
    exact lt_irrefl _ hlpos
  simp only [MenuOp.apply, Menu.update_elixir_synced, if_neg hl0, hg] at h
  have hgenval : ((u - s) / m.seconds_for_one_elixir).toRat =
      (u.toRat - s.toRat) / (3 / 2) := by
    rw [Q.toRat_div, Q.toRat_sub, hsec,
      show ((3 : Q) / 2).toRat = 3 / 2 by
        rw [Q.toRat_div, show (3 : Q) = OfNat.ofNat 3 from rfl,
          show (2 : Q) = OfNat.ofNat 2 from rfl, Q.toRat_ofNat, Q.toRat_ofNat]
        norm_num]
  have hgenmono : m.generated_elixir.toRat ≤
      ((u - s) / m.seconds_for_one_elixir).toRat := by
    rw [hgenval]
    have hsplit : (u.toRat - s.toRat) / (3 / 2) =
        (m.last_update_time.toRat - s.toRat) / (3 / 2) +
        (u.toRat - m.last_update_time.toRat) / (3 / 2) := by ring
    have hnn : (0 : ℚ) ≤ (u.toRat - m.last_update_time.toRat) / (3 / 2) :=
      div_nonneg (by linarith) (by norm_num)
    rw [hsplit]
    linarith
  by_cases hmax : m.initial_elixir + (u - s) / m.seconds_for_one_elixir -
      m.elixir_used - m.elixir_wasted > m.max_elixir
  · have hmax' : 7 + ((u - s) / m.seconds_for_one_elixir).toRat -
        m.elixir_used.toRat - m.elixir_wasted.toRat > 10 := by
      have hq := (Q.lt_iff _ _).mp hmax
      simp only [Q.toRat_add, Q.toRat_sub] at hq
      rw [hi', hmx'] at hq
      linarith
    simp only [if_pos hmax] at h
    cases h
    refine ⟨⟨⟨rfl, hi, hmx, hsec, ?_, ?_, ?_, hdeck⟩, ?_⟩, rfl⟩
    · exact le_trans hsle hu
    · exact lt_of_lt_of_le hlpos hu
    · refine ⟨m.max_elixir, rfl, ?_, ?_, ?_, ?_, ?_, ?_⟩
      · show m.max_elixir.toRat = 7 + ((u - s) / m.seconds_for_one_elixir).toRat -
          m.elixir_used.toRat - (max 0 (m.initial_elixir +
            (u - s) / m.seconds_for_one_elixir - m.max_elixir -
            m.elixir_used)).toRat
        rw [Q.toRat_max, Q.toRat_zero]
        have hval : (m.initial_elixir + (u - s) / m.seconds_for_one_elixir -
            m.max_elixir - m.elixir_used).toRat =
            7 + ((u - s) / m.seconds_for_one_elixir).toRat - 10 -
              m.elixir_used.toRat := by
          simp only [Q.toRat_add, Q.toRat_sub]
          rw [hi', hmx']
        rw [hval, max_eq_right (by linarith)]
        rw [hmx']
        ring
      · rw [hmx']; norm_num
      · rw [hmx']
      · show (0 : ℚ) ≤ (max 0 (m.initial_elixir +
            (u - s) / m.seconds_for_one_elixir - m.max_elixir -
            m.elixir_used)).toRat
        rw [Q.toRat_max, Q.toRat_zero]
        exact le_max_left _ _
      · show (0 : ℚ) ≤ ((u - s) / m.seconds_for_one_elixir).toRat
        linarith
      · show ((u - s) / m.seconds_for_one_elixir).toRat ≤ (u.toRat - s.toRat) / (3 / 2)
        rw [hgenval]
    · show ((u - s) / m.seconds_for_one_elixir).toRat = (u.toRat - s.toRat) / (3 / 2)
      exact hgenval
  · have hmax' : 7 + ((u - s) / m.seconds_for_one_elixir).toRat -
        m.elixir_used.toRat - m.elixir_wasted.toRat ≤ 10 := by
      have hq : ¬ (m.max_elixir.toRat < (m.initial_elixir +
          (u - s) / m.seconds_for_one_elixir - m.elixir_used -
          m.elixir_wasted).toRat) :=
        fun hc => hmax ((Q.lt_iff _ _).mpr hc)
      have hq2 := not_lt.mp hq
      simp only [Q.toRat_add, Q.toRat_sub] at hq2
      rw [hi', hmx'] at hq2
      clear hmax hq
      linarith
    simp only [if_neg hmax] at h
    cases h
    clear hmax
    refine ⟨⟨⟨rfl, hi, hmx, hsec, ?_, ?_, ?_, hdeck⟩, ?_⟩, rfl⟩
    · exact le_trans hsle hu
    · exact lt_of_lt_of_le hlpos hu
    · refine ⟨m.initial_elixir + (u - s) / m.seconds_for_one_elixir -
        m.elixir_used - m.elixir_wasted, rfl, ?_, ?_, ?_, ?_, ?_, ?_⟩
      · show (m.initial_elixir + (u - s) / m.seconds_for_one_elixir -
            m.elixir_used - m.elixir_wasted).toRat =
          7 + ((u - s) / m.seconds_for_one_elixir).toRat -
            m.elixir_used.toRat - (max 0 m.elixir_wasted).toRat
        rw [Q.toRat_max, Q.toRat_zero, max_eq_right hw0]
        simp only [Q.toRat_add, Q.toRat_sub]
        rw [hi']
      · show (0 : ℚ) ≤ (m.initial_elixir + (u - s) / m.seconds_for_one_elixir -
            m.elixir_used - m.elixir_wasted).toRat
        simp only [Q.toRat_add, Q.toRat_sub]
        rw [hi']
        linarith
      · show (m.initial_elixir + (u - s) / m.seconds_for_one_elixir -
            m.elixir_used - m.elixir_wasted).toRat ≤ 10
        simp only [Q.toRat_add, Q.toRat_sub]
        rw [hi']
        linarith
      · show (0 : ℚ) ≤ (max 0 m.elixir_wasted).toRat
        rw [Q.toRat_max, Q.toRat_zero]
        exact le_max_left _ _
      · show (0 : ℚ) ≤ ((u - s) / m.seconds_for_one_elixir).toRat
        linarith
      · show ((u - s) / m.seconds_for_one_elixir).toRat ≤ (u.toRat - s.toRat) / (3 / 2)
        rw [hgenval]
    · show ((u - s) / m.seconds_for_one_elixir).toRat = (u.toRat - s.toRat) / (3 / 2)
      exact hgenval

theorem place_step_weak (s : Q) (m : Menu) (idx : Nat) (m' : Menu)
    (hw : WeakInv s m) (h : MenuOp.apply m (MenuOp.place idx) = .ok m') :
    WeakInv s m' ∧ m'.generated_elixir = m.generated_elixir ∧
      m'.last_update_time = m.last_update_time := by
  obtain ⟨hg, hi, hmx, hsec, hsle, hlpos, ⟨e, he, heq, he0, he10, hw0, hg0, hgle⟩, hdeck⟩ := hw
  simp only [MenuOp.apply, Menu.use_selected_card, Except.map] at h
  cases hd : m.deck.get? idx with
  | none => simp only [hd] at h; exact Except.noConfusion h
  | some card =>
      simp only [hd, he] at h
      by_cases hc : card.cost_elixir ≤ e
      · simp only [if_pos hc] at h
        cases h
        refine ⟨⟨hg, hi, hmx, hsec, hsle, hlpos,
          ⟨e - card.cost_elixir, rfl, ?_, ?_, ?_, hw0, hg0, hgle⟩, hdeck⟩, rfl, rfl⟩
        · show (e - card.cost_elixir).toRat = 7 + m.generated_elixir.toRat -
            (m.elixir_used + card.cost_elixir).toRat - m.elixir_wasted.toRat
          rw [Q.toRat_sub, Q.toRat_add, heq]
          ring
        · show (0 : ℚ) ≤ (e - card.cost_elixir).toRat
          rw [Q.toRat_sub]
          have := (Q.le_iff _ _).mp hc
          linarith
        · show (e - card.cost_elixir).toRat ≤ 10
          rw [Q.toRat_sub]
          have hcost0 : (0 : ℚ) ≤ card.cost_elixir.toRat :=
            hdeck card (List.get?_mem hd)
          linarith [he10]
      · simp only [if_neg hc] at h
        cases h
        exact ⟨⟨hg, hi, hmx, hsec, hsle, hlpos,
          ⟨e, rfl, heq, he0, he10, hw0, hg0, hgle⟩, hdeck⟩, rfl, rfl⟩

theorem runMenu_exact (s : Q) (ops : List MenuOp) : ∀ (m m' : Menu),
    ExactInv s m → timesOK m.last_update_time ops →
    runMenu m ops = .ok m' → ExactInv s m' := by
  induction ops with
  | nil => intro m m' hx _ h; cases h; exact hx
  | cons op rest ih =>
      intro m m' hx hts h
      simp only [runMenu] at h
      cases happ : MenuOp.apply m op with
      | error msg => rw [happ] at h; exact Except.noConfusion h
      | ok m1 =>
          rw [happ] at h
          cases op with
          | upd u =>
              obtain ⟨htu, hrest⟩ := hts
              obtain ⟨hx1, hlast⟩ := upd_step_exact s m u m1 hx.1
                ((Q.le_iff _ _).mp htu) happ
              exact ih m1 m' hx1 (hlast ▸ hrest) h
          | place idx =>
              obtain ⟨hw1, hgen, hlast⟩ := place_step_weak s m idx m1 hx.1 happ
              have hx1 : ExactInv s m1 := by
                refine ⟨hw1, ?_⟩
                rw [hgen, hlast]
                exact hx.2
              exact ih m1 m' hx1 (by rw [hlast]; exact hts) h

/-- Splitting a run at any point. -/
theorem runMenu_append (ops1 ops2 : List MenuOp) : ∀ (m : Menu),
    runMenu m (ops1 ++ ops2) = (runMenu m ops1).bind (fun m1 => runMenu m1 ops2) := by
  induction ops1 with
  | nil => intro m; rfl
  | cons op rest ih =>
      intro m
      simp only [List.cons_append, runMenu]
      cases MenuOp.apply m op with
      | error msg => rfl
      | ok m1 => exact ih m1

/-- C7 counterexample: the very first `update_elixir_synced` call pins the
displayed elixir to `initial = 7` regardless of the elapsed time (the
`last_update_time == 0` branch), so at synced instant `t = 3` after a game
start at 0 the arbiter shows 7, while
`clamp(initial + t/1.5 - used - wasted, 0, 10) = 9`. -/
theorem c7_counterexample :
    (((Menu.init []).set_game_start_time 0).update_elixir_synced 3).map
        Menu.elixir = .ok (some 7) ∧
    min (max ((7 : Q) + (3 - 0) / (3 / 2) - 0 - 0) 0) 10 = 9 := by
  decide

/-- Claim C7 (amended): after the pinned first resync, every state reached
by resyncs with nondecreasing times and card placements satisfies
`elixir = clamp(initial + (t_last - start)/1.5 - used - wasted, 0, 10)`
(`t_last` the most recent resync time), and `elixir_wasted` is nondecreasing
along the whole run. -/
theorem c7_amended_elixir (deck : List Card) (s t0 t1 : Q)
    (rest : List MenuOp) (m' : Menu)
    (hdk : ∀ c ∈ deck, (0 : Q) ≤ c.cost_elixir)
    (hs : s ≤ t0) (h0 : (0 : Q) < t0) (ht1 : t0 ≤ t1)
    (hrest : timesOK t1 rest)
    (hrun : runMenu ((Menu.init deck).set_game_start_time s)
        (MenuOp.upd t0 :: MenuOp.upd t1 :: rest) = .ok m') :
    (∃ e, m'.elixir = some e ∧
        e.toRat = min (max (7 + (m'.last_update_time.toRat - s.toRat) / (3 / 2)
          - m'.elixir_used.toRat - m'.elixir_wasted.toRat) 0) 10) ∧
    (∀ ops1 ops2 mi, MenuOp.upd t0 :: MenuOp.upd t1 :: rest = ops1 ++ ops2 →
        runMenu ((Menu.init deck).set_game_start_time s) ops1 = .ok mi →
        mi.elixir_wasted.toRat ≤ m'.elixir_wasted.toRat) := by
  constructor
  · -- the clamp formula, via the exact invariant
    have hs' := (Q.le_iff _ _).mp hs
    have h0' : (0 : ℚ) < t0.toRat := by
      have := (Q.lt_iff _ _).mp h0
      rwa [Q.toRat_zero] at this
    have ht1' := (Q.le_iff _ _).mp ht1
    have hpin : MenuOp.apply ((Menu.init deck).set_game_start_time s)
        (MenuOp.upd t0) = .ok
        { selected_card := none, last_update_time := t0, initial_elixir := 7
          max_elixir := 10, deck := deck, game_start_time := some s
          generated_elixir := 0, elixir_used := 0, elixir_wasted := 0
          seconds_for_one_elixir := 3/2, elixir := some 7 } := rfl
    set m1 : Menu :=
        { selected_card := none, last_update_time := t0, initial_elixir := 7
          max_elixir := 10, deck := deck, game_start_time := some s
          generated_elixir := 0, elixir_used := 0, elixir_wasted := 0
          seconds_for_one_elixir := 3/2, elixir := some 7 } with hm1
    have hw1 : WeakInv s m1 := by
      refine ⟨rfl, rfl, rfl, rfl, hs', h0', ⟨7, rfl, ?_, ?_, ?_, ?_, ?_, ?_⟩, ?_⟩
      · show (7 : Q).toRat = 7 + (0 : Q).toRat - (0 : Q).toRat - (0 : Q).toRat
        rw [Q.toRat_zero, show (7 : Q) = OfNat.ofNat 7 from rfl, Q.toRat_ofNat]
        norm_num
      · rw [show (7 : Q) = OfNat.ofNat 7 from rfl, Q.toRat_ofNat]; norm_num
      · rw [show (7 : Q) = OfNat.ofNat 7 from rfl, Q.toRat_ofNat]; norm_num
      · rw [Q.toRat_zero]
      · rw [Q.toRat_zero]
      · rw [Q.toRat_zero]
        exact div_nonneg (by linarith) (by norm_num)
      · intro c hc
        have := (Q.le_iff _ _).mp (hdk c hc)
        rwa [Q.toRat_zero] at this
    simp only [runMenu, hpin, Except.bind] at hrun
    cases happ1 : MenuOp.apply m1 (MenuOp.upd t1) with
    | error msg => rw [happ1] at hrun; exact Except.noConfusion hrun
    | ok m2 =>
        rw [happ1] at hrun
        obtain ⟨hx2, hlast2⟩ := upd_step_exact s m1 t1 m2 hw1 ht1' happ1
        have hx' : ExactInv s m' :=
          runMenu_exact s rest m2 m' hx2 (by rw [hlast2]; exact hrest) hrun
        obtain ⟨⟨_, _, _, _, _, _, ⟨e, he, heq, he0, he10, _, _, _⟩, _⟩, hexact⟩ := hx'
        refine ⟨e, he, ?_⟩
        rw [heq, hexact, max_eq_left, min_eq_left]
        · rw [← hexact]; linarith
        · rw [← hexact]; linarith
  · -- wasted is nondecreasing along the run
    intro ops1 ops2 mi hsplit hpre
    rw [hsplit, runMenu_append, hpre] at hrun
    exact runMenu_wasted_mono ops2 mi m' hrun

/-- The menu state reached by resyncs at synced times 1 and 3 (start 0). -/
def c7End : Menu :=
  { selected_card := none, last_update_time := 3, initial_elixir := 7
    max_elixir := 10, deck := [], game_start_time := some 0
    generated_elixir := 2, elixir_used := 0, elixir_wasted := 0
    seconds_for_one_elixir := 3/2, elixir := some 9 }

/-- Witness for `c7_amended_elixir` at a concrete input. -/
theorem c7_amended_elixir_witness :
    (∃ e, c7End.elixir = some e ∧
        e.toRat = min (max (7 + (c7End.last_update_time.toRat - (0 : Q).toRat) / (3 / 2)
          - c7End.elixir_used.toRat - c7End.elixir_wasted.toRat) 0) 10) ∧
    (∀ ops1 ops2 mi, MenuOp.upd 1 :: MenuOp.upd 3 :: ([] : List MenuOp) = ops1 ++ ops2 →
        runMenu ((Menu.init []).set_game_start_time 0) ops1 = .ok mi →
        mi.elixir_wasted.toRat ≤ c7End.elixir_wasted.toRat) :=
  c7_amended_elixir [] 0 1 3 [] c7End (by decide) (by decide) (by decide)
    (by decide) (by decide) (by decide)

/-! ## Claim C8: local placement rejection and charging -/

/-- Extract the board of a successful construction (fallback never used). -/
def boardOf (r : Except String Board) : Board :=
  match r with
  | Except.ok b => b
  | Except.error _ =>
      { width := 18, height := 32, player_id := "", heap := [], entities := []
        new_entities := [], towers := [], obstacles := [], counter := 0 }

/-- The freshly constructed board of player "1" (id counter starting at 0). -/
def b0 : Board := boardOf (Board.init "1" 0)

/-- A menu holding a selected 5-elixir card with only 3 elixir available. -/
def c8Menu : Menu :=
  { selected_card := some 0, last_update_time := 1, initial_elixir := 7
    max_elixir := 10, deck := [{ card_type := "Mago", cost_elixir := 5 }]
    game_start_time := some 0, generated_elixir := 0, elixir_used := 4
    elixir_wasted := 0, seconds_for_one_elixir := 3/2, elixir := some 3 }

/-- C8 counterexample: a placement rejected for insufficient elixir does NOT
clear the selected card — `use_selected_card` returns `None` without touching
`selected_card` — contradicting the claim that every local rejection clears
the selection.  (No elixir is charged and no event is emitted, and the click
position (5,5) is inside player 1's half and not an obstacle, so the
rejection is exactly the insufficient-elixir one.) -/
theorem c8_counterexample :
    handle_board_click b0 c8Menu (5, 5) 10 0 = .ok (c8Menu, none) ∧
    c8Menu.selected_card = some 0 := by
  decide

/-- Claim C8 (amended): out-of-area and invalid-cell rejections clear the
selected card, charge nothing and emit nothing; an insufficient-elixir
rejection charges nothing and emits nothing but LEAVES the card selected;
a card is admissible iff `cost ≤ elixir`, and an accepted placement
decrements `elixir` and increments `elixir_used` by exactly the card's cost,
clears the selection and emits exactly one `spawn_unit` event (delay 0.2). -/
theorem c8_amended_click (b : Board) (m : Menu) (gp : Int × Int) (now ts : Q) :
    (¬ b.is_my_area gp = true →
      handle_board_click b m gp now ts = .ok ({ m with selected_card := none }, none)) ∧
    (b.is_my_area gp = true → ¬ b.is_valid_placement gp = true →
      handle_board_click b m gp now ts = .ok ({ m with selected_card := none }, none)) ∧
    (∀ idx card e, b.is_my_area gp = true → b.is_valid_placement gp = true →
      m.selected_card = some idx → m.deck.get? idx = some card →
      m.elixir = some e →
      (card.cost_elixir ≤ e →
        handle_board_click b m gp now ts = .ok
          ({ m with elixir := some (e - card.cost_elixir)
                    elixir_used := m.elixir_used + card.cost_elixir
                    selected_card := none },
           some (Event.make "spawn_unit" (now - ts) (1/5)
             { entity_type := some card.card_type
               grid_position := some ((gp.1 : Q), (gp.2 : Q))
               player_id := some b.player_id }))) ∧
      (¬ card.cost_elixir ≤ e →
        handle_board_click b m gp now ts = .ok (m, none))) := by
  refine ⟨?_, ?_, ?_⟩
  · intro harea
    simp only [handle_board_click, if_pos harea]
  · intro harea hval
    have h1 : ¬¬ (b.is_my_area gp = true) := not_not_intro harea
    simp only [handle_board_click, if_neg h1, if_pos hval]
  · intro idx card e harea hval hsel hd he
    have h1 : ¬¬ (b.is_my_area gp = true) := not_not_intro harea
    have h2 : ¬¬ (b.is_valid_placement gp = true) := not_not_intro hval
    constructor
    · intro hc
      simp only [handle_board_click, if_neg h1, if_neg h2,
        Menu.use_selected_card, hsel, hd, he, if_pos hc, Except.bind, Bind.bind]
    · intro hc
      simp only [handle_board_click, if_neg h1, if_neg h2,
        Menu.use_selected_card, hsel, hd, he, if_neg hc, Except.bind, Bind.bind]

/-- A menu able to afford its selected 3-elixir card. -/
def c8RichMenu : Menu :=
  { selected_card := some 0, last_update_time := 1, initial_elixir := 7
    max_elixir := 10, deck := [{ card_type := "Caballero", cost_elixir := 3 }]
    game_start_time := some 0, generated_elixir := 0, elixir_used := 0
    elixir_wasted := 0, seconds_for_one_elixir := 3/2, elixir := some 7 }

/-- Witness for `c8_amended_click` at a concrete accepted placement. -/
theorem c8_amended_click_witness :
    b0.is_my_area (5, 5) = true ∧ b0.is_valid_placement (5, 5) = true ∧
    handle_board_click b0 c8RichMenu (5, 5) 10 0 = .ok
      ({ c8RichMenu with
           elixir := some ((7 : Q) - 3)
           elixir_used := c8RichMenu.elixir_used + 3
           selected_card := none },
       some (Event.make "spawn_unit" ((10 : Q) - 0) (1/5)
         { entity_type := some "Caballero"
           grid_position := some ((5 : Q), (5 : Q))
           player_id := some b0.player_id })) :=
  ⟨by decide, by decide,
    ((c8_amended_click b0 c8RichMenu (5, 5) 10 0).2.2
      0 { card_type := "Caballero", cost_elixir := 3 } 7
      (by decide) (by decide) rfl rfl rfl).1 (by decide)⟩

/-! ## Claim C4: placement validation and occupancy -/

/-- Spec-worded occupancy predicate (written from the spec's words, for
comparison with the source's checks): a grid cell counts as occupied when
some live entity on the board has it as its spawn cell, i.e. the entity's
position floors to the cell. -/
def specOccupied (b : Board) (grid_pos : Int × Int) : Bool :=
  b.liveEnts.any (fun e =>
    decide (e.x.floor = grid_pos.1) && decide (e.y.floor = grid_pos.2))

/-- A menu able to afford its selected 3-elixir knight. -/
def c4Menu : Menu :=
  { selected_card := some 0, last_update_time := 1, initial_elixir := 7
    max_elixir := 10, deck := [{ card_type := "Caballero", cost_elixir := 3 }]
    game_start_time := some 0, generated_elixir := 0, elixir_used := 0
    elixir_wasted := 0, seconds_for_one_elixir := 3/2, elixir := some 7 }

/-- A board with a knight already standing on cell (5, 5). -/
def c4Board : Board := boardOf (b0.add_entity "Caballero" (5, 5) (some "1"))

/-- C4 counterexample: cell (5, 5) is occupied by a live entity, yet a click
there is accepted and emits a spawn event — neither `is_valid_placement` nor
`handle_board_click` consults occupancy. -/
theorem c4_counterexample :
    specOccupied c4Board (5, 5) = true ∧
    (handle_board_click c4Board c4Menu (5, 5) 10 0).map
      (fun r => r.2.isSome) = .ok true := by
  decide

/-- Claim C4 (amended): a placement is accepted (emits an event) iff the cell
is in the owner's half, inside the grid and not an obstacle, and the selected
card is affordable; occupancy is never consulted — the outcome depends only
on the board's `player_id`, dimensions and obstacle set, never on its
entities. -/
theorem c4_amended_placement (b b' : Board) (m : Menu) (gp : Int × Int)
    (now ts : Q) (idx : Nat) (card : Card) (e : Q)
    (hsel : m.selected_card = some idx) (hd : m.deck.get? idx = some card)
    (he : m.elixir = some e)
    (hpid : b'.player_id = b.player_id) (hw : b'.width = b.width)
    (hh : b'.height = b.height) (hobs : b'.obstacles = b.obstacles) :
    ((∃ m' ev, handle_board_click b m gp now ts = .ok (m', some ev)) ↔
      (b.is_my_area gp = true ∧ b.is_valid_placement gp = true ∧
        card.cost_elixir ≤ e)) ∧
    handle_board_click b' m gp now ts = handle_board_click b m gp now ts := by
  constructor
  · constructor
    · rintro ⟨m', ev, hclick⟩
      by_cases harea : b.is_my_area gp = true
      · by_cases hval : b.is_valid_placement gp = true
        · refine ⟨harea, hval, ?_⟩
          by_cases hc : card.cost_elixir ≤ e
          · exact hc
          · have h1 : ¬¬ (b.is_my_area gp = true) := not_not_intro harea
            have h2 : ¬¬ (b.is_valid_placement gp = true) := not_not_intro hval
            simp only [handle_board_click, if_neg h1, if_neg h2,
              Menu.use_selected_card, hsel, hd, he, if_neg hc,
              Except.bind, Bind.bind] at hclick
            simp at hclick
        · have h1 : ¬¬ (b.is_my_area gp = true) := not_not_intro harea
          simp only [handle_board_click, if_neg h1, if_pos hval] at hclick
          simp at hclick
      · simp only [handle_board_click, if_pos harea] at hclick
        simp at hclick
    · rintro ⟨harea, hval, hc⟩
      have h1 : ¬¬ (b.is_my_area gp = true) := not_not_intro harea
      have h2 : ¬¬ (b.is_valid_placement gp = true) := not_not_intro hval
      refine ⟨{ m with elixir := some (e - card.cost_elixir)
                       elixir_used := m.elixir_used + card.cost_elixir
                       selected_card := none },
              Event.make "spawn_unit" (now - ts) (1/5)
                { entity_type := some card.card_type
                  grid_position := some ((gp.1 : Q), (gp.2 : Q))
                  player_id := some b.player_id }, ?_⟩
      simp only [handle_board_click, if_neg h1, if_neg h2,
        Menu.use_selected_card, hsel, hd, he, if_pos hc,
        Except.bind, Bind.bind]
  · have e1 : b'.is_my_area gp = b.is_my_area gp := by
      simp only [Board.is_my_area, hpid]
    have e2 : b'.is_valid_placement gp = b.is_valid_placement gp := by
      simp only [Board.is_valid_placement, hw, hh, hobs]
    simp only [handle_board_click, e1, e2, hpid]

/-- Witness for `c4_amended_placement`: the occupied cell (5, 5), with the
entity-free board `b0` standing in for the independence half. -/
theorem c4_amended_placement_witness :
    (((∃ m' ev, handle_board_click c4Board c4Menu (5, 5) 10 0 =
          .ok (m', some ev)) ↔
        (c4Board.is_my_area (5, 5) = true ∧
         c4Board.is_valid_placement (5, 5) = true ∧ (3 : Q) ≤ 7)) ∧
      handle_board_click b0 c4Menu (5, 5) 10 0 =
        handle_board_click c4Board c4Menu (5, 5) 10 0) ∧
    c4Menu.selected_card = some 0 ∧ c4Menu.elixir = some 7 ∧
    b0.player_id = c4Board.player_id ∧ b0.obstacles = c4Board.obstacles :=
  ⟨c4_amended_placement c4Board b0 c4Menu (5, 5) 10 0 0
      { card_type := "Caballero", cost_elixir := 3 } 7
      rfl rfl rfl (by decide) (by decide) (by decide) (by decide),
   rfl, rfl, by decide, by decide⟩

/-! ## Claim C9: unusable spawn events -/

/-- A spawn event with an entity type no constructor knows. -/
def c9Ev : Event :=
  Event.make "spawn_unit" 0 0
    { entity_type := some "Dragon", grid_position := some (5, 5)
      player_id := some "1" }

/-- A spawn event whose grid position lies outside the board. -/
def c9BadEv : Event :=
  Event.make "spawn_unit" 0 0
    { entity_type := some "Caballero", grid_position := some (-1, 5)
      player_id := some "1" }

/-- C9 counterexample: a spawn_unit event with an out-of-bounds grid position
makes `Entity.__init__` raise `ValueError`, and no try/except anywhere in the
tick path catches it — the exception escapes, contradicting "no exception
escapes". -/
theorem c9_counterexample :
    process_event c9BadEv b0 =
      .error "ValueError: Coordinates are out of bounds." := by
  decide

/-- Claim C9 (amended): a spawn_unit event whose entity_type is unknown (or
whose payload lacks a type or position) leaves the board exactly unchanged,
because `create_entity_by_type` returns `None` and `add_entity` then does
nothing; but an out-of-bounds position raises instead of no-opping. -/
theorem c9_amended_unknown (b : Board) (ev : Event) (t : String) (gp : Q × Q)
    (h1 : ev.event_type = "spawn_unit")
    (h2 : ev.data.entity_type = some t)
    (h3 : ev.data.grid_position = some gp)
    (ht : t ≠ "Caballero") (ht2 : t ≠ "Mago") (ht3 : t ≠ "Mosquetera") :
    process_event ev b = .ok b := by
  simp only [process_event, if_pos h1, h2, h3]
  simp only [Board.add_entity, Board.create_entity_by_type,
    if_neg ht, if_neg ht2, if_neg ht3, Except.bind, Bind.bind]

/-- Witness for `c9_amended_unknown` on the unknown type "Dragon". -/
theorem c9_amended_unknown_witness :
    process_event c9Ev b0 = .ok b0 :=
  c9_amended_unknown b0 c9Ev "Dragon" (5, 5) rfl rfl rfl
    (by decide) (by decide) (by decide)

/-! ## Claim C5: projectile expiry -/

/-- Every member of `setObj heap x` carrying `x`'s id is `x` itself. -/
theorem setObj_mem_id (heap : List Ent) (x e' : Ent)
    (hm : e' ∈ setObj heap x) (hid : e'.entity_id = x.entity_id) : e' = x := by
  rw [setObj] at hm
  obtain ⟨o, _, ho⟩ := List.mem_map.mp hm
  by_cases h : o.entity_id == x.entity_id
  · rw [if_pos h] at ho
    exact ho.symm
  · rw [if_neg h] at ho
    rw [← ho] at hid
    exact absurd (beq_iff_eq.mpr hid) h

/-- `projectile_move_towards` only moves the projectile: the clock, the
duration bound, the id and the kind are untouched. -/
theorem projectile_move_towards_fields (sq : Sqrt) (dt : Q) (self self' : Ent)
    (h : self.projectile_move_towards sq dt = .ok self') :
    self'.elapsed_time = self.elapsed_time ∧
    self'.max_duration = self.max_duration ∧
    self'.entity_id = self.entity_id := by
  rw [Ent.projectile_move_towards] at h
  cases htp : self.target_pos with
  | none => rw [htp] at h; exact Except.noConfusion h
  | some tp =>
      rw [htp] at h
      simp only [] at h
      split at h <;> (injection h with h; subst h; exact ⟨rfl, rfl, rfl⟩)

/-- Writing back an inactive object leaves no active object under its id. -/
theorem expiry_core (heap1 : List Ent) (self4 : Ent) (pid : Nat)
    (hid : self4.entity_id = pid) (hact4 : self4.active = false) :
    ∀ e' ∈ setObj heap1 self4, e'.entity_id = pid → e'.active = false := by
  intro e' hm hid'
  rw [setObj_mem_id heap1 self4 e' hm (by rw [hid', hid])]
  exact hact4

/-- Claim C5 (amended): once a projectile's flight time strictly exceeds
`max_duration`, the execute step writes it back deactivated — whatever the
delivery outcome.  (At `elapsed = max_duration` exactly it stays active: the
source's timeout test is strict, and a gone or inactive target never causes
expiry, as the counterexample shows.) -/
theorem c5_amended_expiry (sq : Sqrt) (dt : Q) (b b' : Board) (p : Ent)
    (hrun : p.projectile_execute sq dt b = .ok b')
    (hact : p.active = true)
    (hdur : p.max_duration < p.elapsed_time + dt) :
    ∀ e' ∈ b'.heap, e'.entity_id = p.entity_id → e'.active = false := by
  have h1 : ¬¬ (p.active = true) := not_not_intro hact
  rw [Ent.projectile_execute, if_neg h1] at hrun
  simp only [Except.bind, Bind.bind, Except.pure, Pure.pure] at hrun
  cases hmv : Ent.projectile_move_towards sq dt
      { p with elapsed_time := p.elapsed_time + dt } with
  | error s => rw [hmv] at hrun; exact Except.noConfusion hrun
  | ok self2 =>
      rw [hmv] at hrun
      simp only [] at hrun
      obtain ⟨hel, hmax, hid⟩ := projectile_move_towards_fields _ _ _ _ hmv
      have hcond : self2.max_duration < self2.elapsed_time := by
        rw [hmax, hel]; exact hdur
      cases htp : self2.target_pos with
      | none => rw [htp] at hrun; exact Except.noConfusion hrun
      | some tp =>
          rw [htp] at hrun
          repeat' split at hrun
          all_goals
            first
              | exact Except.noConfusion hrun
              | exact absurd hcond (by assumption)
              | (injection hrun with hrun; subst hrun
                 exact expiry_core _ _ _ hid rfl)

/-- Extract the entity of a successful construction (fallback never used). -/
def entOf (r : Except String (Ent × Nat)) : Ent :=
  match r with
  | Except.ok (e, _) => e
  | Except.error _ =>
      { entity_id := 0, type := EntityType.spell, x := 0, y := 0
        owner := none, active := false }

/-- A knight of player "2", immediately killed (life 0, inactive). -/
def c5t : Ent := entOf (mkCaballero 5 5 (some "2") 0)

/-- The dead knight: `receive_damage` by its whole life deactivates it. -/
def c5tDead : Ent := c5t.receive_damage c5t.life

/-- A projectile of player "1" standing exactly on its dead target. -/
def c5p : Ent := entOf (mkProjectile [c5tDead] 5 5 (some "1") 5 (some 1) 10 1)

/-- A board holding only the projectile (the dead target stays referenced
from the heap, as a dead Python object would). -/
def c5Board : Board :=
  { width := 18, height := 32, player_id := "1", heap := [c5tDead, c5p]
    entities := [2], new_entities := [], towers := [], obstacles := []
    counter := 2 }

/-- An event-free timeline at 25 ticks per second. -/
def c5TL : GameTimeline :=
  { simulation_time := 0, tick_time := 1/25, events := [] }

set_option maxRecDepth 100000 in
/-- C5 counterexample: the projectile's target is gone (inactive) from the
start, yet after 125 ticks of 1/25 s — exactly `max_duration = 5` seconds
since creation — the projectile is still active: a gone target never expires
it (delivery requires `target.active`), and the timeout test is strict. -/
theorem c5_counterexample :
    (getObj c5Board.heap 1).map Ent.active = some false ∧
    (runTicks ratSqrt 125 c5TL c5Board).map (fun r =>
        (getObj r.2.heap 2).map (fun e => (e.active, e.elapsed_time))) =
      .ok (some (true, 5)) := by
  decide

/-- The same projectile one tick later in its flight clock. -/
def c5pLate : Ent := { c5p with elapsed_time := 5 }

/-- The board carrying the over-age projectile. -/
def c5BoardLate : Board := { c5Board with heap := [c5tDead, c5pLate] }

/-- The board after one more execute step of the over-age projectile. -/
def c5After : Board :=
  boardOf (c5pLate.projectile_execute ratSqrt (1/25) c5BoardLate)

/-- Witness for `c5_amended_expiry`: one tick past `max_duration`, the
projectile is written back deactivated. -/
theorem c5_amended_expiry_witness :
    (getObj c5After.heap 2).map Ent.active = some false := by
  cases hgo : getObj c5After.heap 2 with
  | none => exact absurd hgo (by decide)
  | some e =>
      rw [getObj] at hgo
      have hmem : e ∈ c5After.heap := List.mem_of_find?_eq_some hgo
      have hbeq := List.find?_some hgo
      have hid : e.entity_id = c5pLate.entity_id := by
        have h2 : e.entity_id = 2 := eq_of_beq hbeq
        rw [h2]; decide
      have H := c5_amended_expiry ratSqrt (1/25) c5BoardLate c5After c5pLate
        (by decide) (by decide) (by decide)
      simp only [Option.map]
      rw [H e hmem hid]

/-! ## Claim C3: central-tower activation -/

/-- An event-free timeline at 25 ticks per second. -/
def tl0 : GameTimeline :=
  { simulation_time := 0, tick_time := 1/25, events := [] }

/-- A minimal board exercising the lateral-tower death path: player 1's
central tower (id 1) and a weakened lateral tower (id 2, 150 life) against a
hostile knight (id 3) already in attacking range of the lateral. -/
def c3Mini : Except String Board := do
  let (central, c1) ← mkTower (17/2) (5/2) (some "1") TowerType.central 0
  let (lateral, c2) ← mkTower 3 6 (some "1") TowerType.lateral c1
  let (knight0, c3) ← mkCaballero 2 6 (some "2") c2
  let lateral' := { lateral with life := 150 }
  let knight := { knight0 with delay := 0, target := some lateral.entity_id
                               state := StateType.attacking }
  .ok { width := 18, height := 32, player_id := "1"
        heap := [central, lateral', knight]
        entities := [central.entity_id, lateral'.entity_id, knight.entity_id]
        new_entities := [], towers := [central.entity_id, lateral'.entity_id]
        obstacles := setup_obstacles, counter := c3 }

set_option maxRecDepth 100000 in
/-- Claim C3: the knight kills the lateral tower on the first tick (id 2 is
reaped from `entities`), yet on the next tick the undamaged central tower is
still `Idle` at full life — not `Attacking` as the spec requires.
`can_i_attack`'s dead-lateral test scans `self.entities`, but a destroyed
tower is removed from that list in the same tick it dies
(`receive_damage` flips `active` at `life ≤ 0` and `Board.update` filters
inactive entities before the next tick), so the test can never see a dead
lateral: the activation path is dead code. -/
theorem c3_code_bug :
    (c3Mini.bind (fun b => runTicks ratSqrt 2 tl0 b)).map (fun r =>
      ((getObj r.2.heap 1).map (fun e =>
          (e.state, decide (e.life = e.max_life))),
       r.2.entities.contains 2)) =
      .ok (some (StateType.idle, true), false) := by
  decide

/-! ## Claim C1: determinism -/

/-- Claim C1: two runs from identical initial board and timeline (the
timeline carries the event sequence), stepped the same number of ticks with
the same square-root routine, have identical entity lists and, entity by
entity, equal ids, positions within 1e-6 and equal life.  The embedded
simulation is a function of its inputs — every iteration order (the entity
fold, the stable distance sort of target selection, the event drain) is
fixed by the state — so determinism holds as congruence, and the 1e-6
position tolerance is met with slack 0. -/
theorem c1_determinism (sq : Sqrt) (k : Nat) (tl tl' : GameTimeline)
    (b1 b2 : Board) (hb : b1 = b2) (htl : tl = tl')
    (r1 r2 : GameTimeline × Board)
    (h1 : runTicks sq k tl b1 = .ok r1) (h2 : runTicks sq k tl' b2 = .ok r2) :
    r1.2.entities = r2.2.entities ∧
    ∀ i e1 e2, getObj r1.2.heap i = some e1 → getObj r2.2.heap i = some e2 →
      e1.entity_id = e2.entity_id ∧
      |e1.x.toRat - e2.x.toRat| ≤ 1/1000000 ∧
      |e1.y.toRat - e2.y.toRat| ≤ 1/1000000 ∧
      e1.life = e2.life := by
  subst hb; subst htl
  rw [h1] at h2
  injection h2 with h2
  subst h2
  refine ⟨rfl, ?_⟩
  intro i e1 e2 hg1 hg2
  rw [hg1] at hg2
  injection hg2 with hg2
  subst hg2
  exact ⟨rfl, by simp, by simp, rfl⟩

/-- An event-free timeline at 25 ticks per second. -/
def c1TL : GameTimeline :=
  { simulation_time := 0, tick_time := 1/25, events := [] }

/-- One tick of the full starting board (fallback never used). -/
def c1Res : GameTimeline × Board :=
  match runTicks ratSqrt 1 c1TL b0 with
  | .ok r => r
  | .error _ => (c1TL, b0)

set_option maxRecDepth 100000 in
/-- Witness for `c1_determinism`: one tick of the full starting board. -/
theorem c1_determinism_witness :
    runTicks ratSqrt 1 c1TL b0 = .ok c1Res ∧
    c1Res.2.entities = c1Res.2.entities :=
  ⟨by decide,
   (c1_determinism ratSqrt 1 c1TL c1TL b0 b0 rfl rfl c1Res c1Res
      (by decide) (by decide)).1⟩

/-! ## Claim C10: entity ids and reference ordering -/

/-- The object ids a board references: the live list, staged ids last. -/
def boardIds (b : Board) : List Nat := b.entities ++ b.new_entities

/-- C10's invariant: the referenced ids are strictly ascending (staged ones
at the end) and never exceed the id counter. -/
def IdInv (b : Board) : Prop :=
  (boardIds b).Pairwise (· < ·) ∧ ∀ i ∈ boardIds b, i ≤ b.counter

/-- A single executing entity leaves the board's references and counter
unchanged, or stages exactly the next fresh id. -/
def ExecStep (b b' : Board) : Prop :=
  b'.entities = b.entities ∧
  ((b'.new_entities = b.new_entities ∧ b'.counter = b.counter) ∨
   (b'.new_entities = b.new_entities ++ [b.counter + 1] ∧
    b'.counter = b.counter + 1))

theorem execStep_idInv {b b' : Board} (h : ExecStep b b') (hinv : IdInv b) :
    IdInv b' := by
  obtain ⟨he, h2⟩ := h
  obtain ⟨hp, hb⟩ := hinv
  cases h2 with
  | inl h2 =>
      constructor
      · rw [boardIds, he, h2.1]
        exact hp
      · intro i hi
        rw [boardIds, he, h2.1] at hi
        rw [h2.2]
        exact hb i hi
  | inr h2 =>
      have hids : boardIds b' = boardIds b ++ [b.counter + 1] := by
        rw [boardIds, he, h2.1, boardIds, List.append_assoc]
      constructor
      · rw [hids, List.pairwise_append]
        refine ⟨hp, List.pairwise_singleton _ _, ?_⟩
        intro x hx y hy
        rw [List.mem_singleton] at hy
        subst hy
        exact Nat.lt_succ_of_le (hb x hx)
      · intro i hi
        rw [hids, List.mem_append, List.mem_singleton] at hi
        rw [h2.2]
        cases hi with
        | inl hi => exact Nat.le_succ_of_le (hb i hi)
        | inr hi => exact le_of_eq hi

/-- `get_next_id` hands out exactly the successor of the current counter. -/
theorem entityInit_ids (x y : Q) (c : Nat) (pos : Q × Q) (i c' : Nat)
    (h : entityInit x y c = .ok (pos, i, c')) : i = c + 1 ∧ c' = c + 1 := by
  rw [entityInit] at h
  split at h
  · exact Except.noConfusion h
  · injection h with h
    injection h with h1 h2
    injection h2 with h2 h3
    exact ⟨h2.symm, h3.symm⟩

theorem mkTroop_ids (kind : TroopKind) (x y life : Q) (o : Option String)
    (dmg sp rg hs ps : Q) (c : Nat) (e : Ent) (c' : Nat)
    (h : mkTroop kind x y life o dmg sp rg hs ps c = .ok (e, c')) :
    e.entity_id = c + 1 ∧ c' = c + 1 := by
  rw [mkTroop] at h
  simp only [Except.bind, Bind.bind, Except.pure, Pure.pure] at h
  cases hei : entityInit x y c with
  | error s => rw [hei] at h; exact Except.noConfusion h
  | ok v =>
      rw [hei] at h
      obtain ⟨⟨px, py⟩, i, c2⟩ := v
      obtain ⟨hi, hc⟩ := entityInit_ids x y c (px, py) i c2 hei
      simp only [] at h
      injection h with h
      injection h with h1 h2
      subst h1
      subst h2
      exact ⟨hi, hc⟩

theorem mkProjectile_ids (heap : List Ent) (x y : Q) (o : Option String)
    (s : Q) (t : Option Nat) (d : Q) (c : Nat) (p : Ent) (c' : Nat)
    (h : mkProjectile heap x y o s t d c = .ok (p, c')) :
    p.entity_id = c + 1 ∧ c' = c + 1 := by
  rw [mkProjectile] at h
  simp only [Except.bind, Bind.bind, Except.pure, Pure.pure] at h
  cases hei : entityInit x y c with
  | error s2 => rw [hei] at h; exact Except.noConfusion h
  | ok v =>
      rw [hei] at h
      obtain ⟨⟨px, py⟩, i, c2⟩ := v
      obtain ⟨hi, hc⟩ := entityInit_ids x y c (px, py) i c2 hei
      simp only [] at h
      repeat' split at h
      all_goals try simp only [Except.bind] at h
      all_goals
        first
          | exact Except.noConfusion h
          | (injection h with h
             injection h with h1 h2
             subst h1
             subst h2
             exact ⟨hi, hc⟩)

theorem mkAreaProjectile_ids (heap : List Ent) (x y : Q) (o : Option String)
    (s : Q) (t : Option Nat) (d r : Q) (c : Nat) (p : Ent) (c' : Nat)
    (h : mkAreaProjectile heap x y o s t d r c = .ok (p, c')) :
    p.entity_id = c + 1 ∧ c' = c + 1 := by
  rw [mkAreaProjectile] at h
  simp only [Except.bind, Bind.bind, Except.pure, Pure.pure] at h
  cases hmp : mkProjectile heap x y o s t d c with
  | error s2 => rw [hmp] at h; exact Except.noConfusion h
  | ok v =>
      rw [hmp] at h
      obtain ⟨q, c2⟩ := v
      obtain ⟨hi, hc⟩ := mkProjectile_ids heap x y o s t d c q c2 hmp
      simp only [] at h
      injection h with h
      injection h with h1 h2
      subst h1
      subst h2
      exact ⟨hi, hc⟩

/-- `add_new_entity` with a fresh id is exactly the staging `ExecStep`. -/
theorem add_new_entity_execStep (b : Board) (e : Ent)
    (hid : e.entity_id = b.counter + 1) :
    ExecStep b (b.add_new_entity e (b.counter + 1)) := by
  refine ⟨rfl, Or.inr ⟨?_, rfl⟩⟩
  show b.new_entities ++ [e.entity_id] = b.new_entities ++ [b.counter + 1]
  rw [hid]

theorem tower_execute_execStep (sq : Sqrt) (dt : Q) (b b' : Board) (e : Ent)
    (h : e.tower_execute sq dt b = .ok b') : ExecStep b b' := by
  rw [Ent.tower_execute] at h
  simp only [Except.bind, Bind.bind, Except.pure, Pure.pure] at h
  repeat'
    first
      | (split at h)
      | (simp only [Except.bind] at h)
  all_goals
    first
      | exact Except.noConfusion h
      | (injection h with h; subst h; exact ⟨rfl, Or.inl ⟨rfl, rfl⟩⟩)
      | (injection h with h; subst h
         obtain ⟨hi, hc⟩ := mkProjectile_ids _ _ _ _ _ _ _ _ _ _ (by assumption)
         refine ⟨rfl, Or.inr ⟨?_, ?_⟩⟩
         · simp only [Board.add_new_entity]
           rw [hi]
         · simp only [Board.add_new_entity]
           exact hc)

theorem troop_attack_execStep (sq : Sqrt) (b b' : Board) (e : Ent)
    (h : e.troop_attack sq b = .ok b') : ExecStep b b' := by
  rw [Ent.troop_attack] at h
  simp only [Except.bind, Bind.bind, Except.pure, Pure.pure] at h
  cases hk : e.troop_kind with
  | caballero =>
      rw [hk] at h
      simp only [] at h
      repeat'
        first
          | (split at h)
          | (simp only [Except.bind] at h)
      all_goals
        first
          | exact Except.noConfusion h
          | (injection h with h; subst h; exact ⟨rfl, Or.inl ⟨rfl, rfl⟩⟩)
  | mosquetera =>
      rw [hk] at h
      simp only [] at h
      cases hmp : mkProjectile b.heap e.x e.y e.owner e.projectile_speed
          e.target e.damage b.counter with
      | error s => rw [hmp] at h; exact Except.noConfusion h
      | ok v =>
          obtain ⟨p, c2⟩ := v
          rw [hmp] at h
          simp only [Except.bind] at h
          injection h with h
          subst h
          obtain ⟨hi, hc⟩ := mkProjectile_ids _ _ _ _ _ _ _ _ _ _ hmp
          subst hc
          refine ⟨rfl, Or.inr ⟨?_, rfl⟩⟩
          show b.new_entities ++ [p.entity_id] = b.new_entities ++ [b.counter + 1]
          rw [hi]
  | mago =>
      rw [hk] at h
      simp only [] at h
      cases hmp : mkAreaProjectile b.heap e.x e.y e.owner e.projectile_speed
          e.target e.damage (3/2) b.counter with
      | error s => rw [hmp] at h; exact Except.noConfusion h
      | ok v =>
          obtain ⟨p, c2⟩ := v
          rw [hmp] at h
          simp only [Except.bind] at h
          injection h with h
          subst h
          obtain ⟨hi, hc⟩ := mkAreaProjectile_ids _ _ _ _ _ _ _ _ _ _ _ hmp
          subst hc
          refine ⟨rfl, Or.inr ⟨?_, rfl⟩⟩
          show b.new_entities ++ [p.entity_id] = b.new_entities ++ [b.counter + 1]
          rw [hi]

theorem troop_execute_execStep (sq : Sqrt) (dt : Q) (b b' : Board) (e : Ent)
    (h : e.troop_execute sq dt b = .ok b') : ExecStep b b' := by
  rw [Ent.troop_execute] at h
  simp only [Except.bind, Bind.bind, Except.pure, Pure.pure] at h
  cases hst : e.state with
  | attacking =>
      rw [hst] at h
      simp only [] at h
      split at h
      · split at h
        · exact Except.noConfusion h
        · rename_i v heq
          injection h with h
          subst h
          obtain ⟨h1, h2⟩ := troop_attack_execStep sq b v _ heq
          exact ⟨h1, h2⟩
      · injection h with h; subst h; exact ⟨rfl, Or.inl ⟨rfl, rfl⟩⟩
  | moving =>
      rw [hst] at h
      simp only [] at h
      cases hmv : Ent.troop_move_towards sq e b.heap b.obstacles dt with
      | error s => rw [hmv] at h; exact Except.noConfusion h
      | ok e1 =>
          rw [hmv] at h
          simp only [Except.bind] at h
          injection h with h
          subst h
          exact ⟨rfl, Or.inl ⟨rfl, rfl⟩⟩
  | idle =>
      rw [hst] at h
      simp only [] at h
      injection h with h
      subst h
      exact ⟨rfl, Or.inl ⟨rfl, rfl⟩⟩

theorem projectile_execute_execStep (sq : Sqrt) (dt : Q) (b b' : Board)
    (e : Ent) (h : e.projectile_execute sq dt b = .ok b') : ExecStep b b' := by
  rw [Ent.projectile_execute] at h
  simp only [Except.bind, Bind.bind, Except.pure, Pure.pure] at h
  repeat'
    first
      | (split at h)
      | (simp only [Except.bind] at h)
  all_goals
    first
      | exact Except.noConfusion h
      | (injection h with h; subst h; exact ⟨rfl, Or.inl ⟨rfl, rfl⟩⟩)

theorem execute_execStep (sq : Sqrt) (dt : Q) (b b' : Board) (e : Ent)
    (h : e.execute sq dt b = .ok b') : ExecStep b b' := by
  rw [Ent.execute] at h
  cases ht : e.type with
  | tower => rw [ht] at h; exact tower_execute_execStep sq dt b b' e h
  | troop => rw [ht] at h; exact troop_execute_execStep sq dt b b' e h
  | spell =>
      rw [ht] at h
      injection h with h
      subst h
      exact ⟨rfl, Or.inl ⟨rfl, rfl⟩⟩
  | projectile => rw [ht] at h; exact projectile_execute_execStep sq dt b b' e h

/-- A bind-chain over an error stays an error. -/
theorem foldl_bind_error {α : Type} (f : α → Board → Except String Board)
    (s : String) :
    ∀ l : List α,
      l.foldl (fun acc x => Except.bind acc (f x)) (.error s) = .error s := by
  intro l
  induction l with
  | nil => rfl
  | cons x xs ih => simpa only [List.foldl] using ih

/-- Folding a bind-chain preserves an invariant and accumulates a
transitive relation. -/
theorem foldl_bind_inv {α : Type} (P : Board → Prop) (R : Board → Board → Prop)
    (hrefl : ∀ b, R b b)
    (htrans : ∀ a b c, R a b → R b c → R a c)
    (f : α → Board → Except String Board)
    (hstep : ∀ x b b', P b → f x b = .ok b' → P b' ∧ R b b') :
    ∀ (l : List α) (b0 b1 : Board), P b0 →
      l.foldl (fun acc x => Except.bind acc (f x)) (.ok b0) = .ok b1 →
      P b1 ∧ R b0 b1 := by
  intro l
  induction l with
  | nil =>
      intro b0 b1 hP h
      injection h with h
      subst h
      exact ⟨hP, hrefl b0⟩
  | cons x xs ih =>
      intro b0 b1 hP h
      simp only [List.foldl] at h
      cases hf : f x b0 with
      | error s =>
          rw [show Except.bind (Except.ok b0) (f x) = Except.error s by
                rw [show Except.bind (Except.ok b0) (f x) = f x b0 from rfl, hf]] at h
          rw [foldl_bind_error] at h
          exact Except.noConfusion h
      | ok b2 =>
          rw [show Except.bind (Except.ok b0) (f x) = f x b0 from rfl, hf] at h
          obtain ⟨hP2, hR2⟩ := hstep x b0 b2 hP hf
          obtain ⟨hP1, hR1⟩ := ih b2 b1 hP2 h
          exact ⟨hP1, htrans _ _ _ hR2 hR1⟩

/-- The update phase never touches the reference lists or the counter. -/
theorem updatePhase_idInv (sq : Sqrt) (dt : Q) (b b' : Board)
    (h : b.updatePhase sq dt = .ok b') (hinv : IdInv b) : IdInv b' := by
  rw [Board.updatePhase] at h
  refine (foldl_bind_inv IdInv (fun _ _ => True) (fun _ => trivial)
    (fun _ _ _ _ _ => trivial) _ ?_ b.entities b b' hinv h).1
  intro eid bd bd' hP hf
  refine ⟨?_, trivial⟩
  cases hgo : getObj bd.heap eid with
  | none =>
      rw [hgo] at hf
      injection hf with hf
      subst hf
      exact hP
  | some e =>
      rw [hgo] at hf
      simp only [] at hf
      cases hup : e.update sq bd.heap bd.liveEnts dt with
      | error s => rw [hup] at hf; exact Except.noConfusion hf
      | ok e2 =>
          rw [hup] at hf
          simp only [Except.map] at hf
          injection hf with hf
          subst hf
          exact hP

/-- The execute phase preserves the id invariant (each entity's execute is
an `ExecStep`). -/
theorem executePhase_idInv (sq : Sqrt) (dt : Q) (b b' : Board)
    (h : b.executePhase sq dt = .ok b') (hinv : IdInv b) : IdInv b' := by
  rw [Board.executePhase] at h
  refine (foldl_bind_inv IdInv (fun _ _ => True) (fun _ => trivial)
    (fun _ _ _ _ _ => trivial) _ ?_ b.entities b b' hinv h).1
  intro eid bd bd' hP hf
  refine ⟨?_, trivial⟩
  cases hgo : getObj bd.heap eid with
  | none =>
      rw [hgo] at hf
      injection hf with hf
      subst hf
      exact hP
  | some e =>
      rw [hgo] at hf
      exact execStep_idInv (execute_execStep sq dt bd bd' e hf) hP

/-- Reaping keeps the ascending order (a filter is a sublist) and empties
the staging list. -/
theorem reapAndStage_idInv (b : Board) (hinv : IdInv b) :
    IdInv b.reapAndStage ∧ b.reapAndStage.new_entities = [] := by
  obtain ⟨hp, hb⟩ := hinv
  have hsub : (b.entities.filter (fun eid =>
        ((getObj b.heap eid).map Ent.active).getD false) ++ b.new_entities).Sublist
      (b.entities ++ b.new_entities) :=
    List.Sublist.append (List.filter_sublist _) (List.Sublist.refl _)
  refine ⟨⟨?_, ?_⟩, rfl⟩
  · show ((b.entities.filter _ ++ b.new_entities) ++ []).Pairwise (· < ·)
    rw [List.append_nil]
    exact hp.sublist hsub
  · intro i hi
    show i ≤ b.counter
    rw [boardIds] at hi
    rw [show (b.reapAndStage).new_entities = [] from rfl, List.append_nil] at hi
    exact hb i (hsub.mem hi)

theorem create_entity_ids (b : Board) (t : String) (gp : Q × Q)
    (pid : Option String) (e : Ent) (c' : Nat)
    (h : b.create_entity_by_type t gp pid = .ok (some (e, c'))) :
    e.entity_id = b.counter + 1 ∧ c' = b.counter + 1 := by
  rw [Board.create_entity_by_type] at h
  split at h
  · cases hm : mkCaballero gp.1 gp.2 pid b.counter with
    | error s => rw [hm] at h; exact Except.noConfusion h
    | ok v =>
        obtain ⟨p, c2⟩ := v
        rw [hm] at h
        simp only [Except.map] at h
        injection h with h
        injection h with h
        injection h with h1 h2
        subst h1
        subst h2
        rw [mkCaballero] at hm
        exact mkTroop_ids _ _ _ _ _ _ _ _ _ _ _ _ _ hm
  · split at h
    · cases hm : mkMago gp.1 gp.2 pid b.counter with
      | error s => rw [hm] at h; exact Except.noConfusion h
      | ok v =>
          obtain ⟨p, c2⟩ := v
          rw [hm] at h
          simp only [Except.map] at h
          injection h with h
          injection h with h
          injection h with h1 h2
          subst h1
          subst h2
          rw [mkMago] at hm
          exact mkTroop_ids _ _ _ _ _ _ _ _ _ _ _ _ _ hm
    · split at h
      · cases hm : mkMosquetera gp.1 gp.2 pid b.counter with
        | error s => rw [hm] at h; exact Except.noConfusion h
        | ok v =>
            obtain ⟨p, c2⟩ := v
            rw [hm] at h
            simp only [Except.map] at h
            injection h with h
            injection h with h
            injection h with h1 h2
            subst h1
            subst h2
            rw [mkMosquetera] at hm
            exact mkTroop_ids _ _ _ _ _ _ _ _ _ _ _ _ _ hm
      · injection h with h
        exact Option.noConfusion h

/-- `add_entity` on a board with an empty staging list: the new reference is
appended with the next fresh id. -/
theorem add_entity_idInv (b : Board) (t : String) (gp : Q × Q)
    (pid : Option String) (b' : Board)
    (h : b.add_entity t gp pid = .ok b') (hinv : IdInv b)
    (hnew : b.new_entities = []) : IdInv b' ∧ b'.new_entities = [] := by
  rw [Board.add_entity] at h
  simp only [Except.bind, Bind.bind, Except.pure, Pure.pure] at h
  cases hc : b.create_entity_by_type t gp pid with
  | error s => rw [hc] at h; exact Except.noConfusion h
  | ok v =>
      rw [hc] at h
      cases v with
      | none =>
          simp only [] at h
          injection h with h
          subst h
          exact ⟨hinv, hnew⟩
      | some ec =>
          obtain ⟨e, c2⟩ := ec
          simp only [] at h
          injection h with h
          subst h
          obtain ⟨hi, hc2⟩ := create_entity_ids b t gp pid e c2 hc
          obtain ⟨hp, hb⟩ := hinv
          rw [boardIds, hnew, List.append_nil] at hp hb
          subst hc2
          refine ⟨⟨?_, ?_⟩, hnew⟩
          · show ((b.entities ++ [e.entity_id]) ++ b.new_entities).Pairwise (· < ·)
            rw [hnew, List.append_nil, List.pairwise_append]
            refine ⟨hp, List.pairwise_singleton _ _, ?_⟩
            intro x hx y hy
            rw [List.mem_singleton] at hy
            subst hy
            rw [hi]
            exact Nat.lt_succ_of_le (hb x hx)
          · intro i hi2
            show i ≤ b.counter + 1
            rw [boardIds] at hi2
            simp only [] at hi2
            rw [hnew, List.append_nil, List.mem_append, List.mem_singleton] at hi2
            cases hi2 with
            | inl hi2 => exact Nat.le_succ_of_le (hb i hi2)
            | inr hi2 => rw [hi2, hi]

theorem process_event_idInv (ev : Event) (b b' : Board)
    (h : process_event ev b = .ok b') (hinv : IdInv b)
    (hnew : b.new_entities = []) : IdInv b' ∧ b'.new_entities = [] := by
  rw [process_event] at h
  split at h
  · split at h
    all_goals
      first
        | (exact add_entity_idInv _ _ _ _ _ h hinv hnew)
        | (injection h with h; subst h; exact ⟨hinv, hnew⟩)
  · injection h with h
    subst h
    exact ⟨hinv, hnew⟩

/-- Claim C10: ids are handed out by `get_next_id` as successive counter
values, so under the id invariant a full `execute_tick` keeps the entity
list strictly ascending in entity id (towers first, spawns and staged
projectiles appended in creation order, removals preserving order), with the
staging list empty at the tick boundary. -/
theorem c10_ids (sq : Sqrt) (tl tl' : GameTimeline) (b b' : Board)
    (hinv : IdInv b)
    (hrun : execute_tick sq tl b = .ok (tl', b')) :
    IdInv b' ∧ b'.new_entities = [] ∧ b'.entities.Pairwise (· < ·) := by
  rw [execute_tick] at hrun
  simp only [Except.bind, Bind.bind, Except.pure, Pure.pure] at hrun
  cases hu : b.update sq tl.tick_time with
  | error s => rw [hu] at hrun; exact Except.noConfusion hrun
  | ok b1 =>
      rw [hu] at hrun
      simp only [] at hrun
      rw [Board.update] at hu
      simp only [Except.bind, Bind.bind, Except.pure, Pure.pure] at hu
      cases hA : b.updatePhase sq tl.tick_time with
      | error s => rw [hA] at hu; exact Except.noConfusion hu
      | ok bA =>
          rw [hA] at hu
          simp only [Except.bind] at hu
          cases hB : bA.executePhase sq tl.tick_time with
          | error s => rw [hB] at hu; exact Except.noConfusion hu
          | ok bB =>
              rw [hB] at hu
              simp only [Except.bind] at hu
              injection hu with hu
              have hinvA := updatePhase_idInv sq tl.tick_time b bA hA hinv
              have hinvB := executePhase_idInv sq tl.tick_time bA bB hB hinvA
              obtain ⟨hinv1, hnew1⟩ := reapAndStage_idInv bB hinvB
              rw [hu] at hinv1 hnew1
              split at hrun
              · exact Except.noConfusion hrun
              · rename_i b2 hf
                injection hrun with hrun
                injection hrun with h1 h2
                subst h2
                have hstep : ∀ (ev : Event) (bd bd' : Board),
                    (IdInv bd ∧ bd.new_entities = []) →
                    process_event ev bd = .ok bd' →
                    (IdInv bd' ∧ bd'.new_entities = []) ∧ True :=
                  fun ev bd bd' hPp hfe =>
                    ⟨process_event_idInv ev bd bd' hfe hPp.1 hPp.2, trivial⟩
                obtain ⟨⟨hinv2, hnew2⟩, -⟩ := foldl_bind_inv
                  (fun bd => IdInv bd ∧ bd.new_entities = [])
                  (fun _ _ => True) (fun _ => trivial)
                  (fun _ _ _ _ _ => trivial) process_event hstep
                  _ b1 b2 ⟨hinv1, hnew1⟩ hf
                refine ⟨hinv2, hnew2, ?_⟩
                have hp2 := hinv2.1
                rw [boardIds, hnew2, List.append_nil] at hp2
                exact hp2

/-- An event-free timeline at 25 ticks per second. -/
def c10TL : GameTimeline :=
  { simulation_time := 0, tick_time := 1/25, events := [] }

/-- One tick of the full starting board (fallback never used). -/
def c10Res : GameTimeline × Board :=
  match execute_tick ratSqrt c10TL b0 with
  | .ok r => r
  | .error _ => (c10TL, b0)

set_option maxRecDepth 100000 in
/-- Witness for `c10_ids`: the starting board (towers 1-6, counter 6) after
one full tick still lists its entities in strictly ascending id order. -/
theorem c10_ids_witness :
    execute_tick ratSqrt c10TL b0 = .ok c10Res ∧
    List.Pairwise (· < ·) c10Res.2.entities :=
  ⟨by decide,
   (c10_ids ratSqrt c10TL c10Res.1 b0 c10Res.2
      ⟨by decide, by decide⟩ (by decide)).2.2⟩

/-! ## Claim C6: life bounds and monotonicity -/

theorem Q.le_refl' (x : Q) : x ≤ x := (Q.le_iff x x).mpr le_rfl

theorem Q.le_trans' {x y z : Q} (h1 : x ≤ y) (h2 : y ≤ z) : x ≤ z := by
  rw [Q.le_iff] at h1 h2 ⊢
  exact le_trans h1 h2

theorem Q.sub_le_self' (x a : Q) (h : (0 : Q) ≤ a) : x - a ≤ x := by
  rw [Q.le_iff] at h ⊢
  rw [Q.toRat_sub]
  rw [Q.toRat_zero] at h
  linarith

/-- C6's per-object invariant: `life ≤ max_life`, nonnegative damage, and a
live object has nonnegative life. -/
def EntInv (e : Ent) : Prop :=
  e.life ≤ e.max_life ∧ (0 : Q) ≤ e.damage ∧ (e.active = true → (0 : Q) ≤ e.life)

/-- One tick's effect on one pre-existing object: same id, same `max_life`,
life not increased. -/
def entLE (e e' : Ent) : Prop :=
  e'.life ≤ e.life ∧ e'.max_life = e.max_life ∧ e'.entity_id = e.entity_id

theorem entLE_refl (e : Ent) : entLE e e := ⟨Q.le_refl' _, rfl, rfl⟩

theorem entLE_trans {a b c : Ent} (h1 : entLE a b) (h2 : entLE b c) :
    entLE a c :=
  ⟨Q.le_trans' h2.1 h1.1, h2.2.1.trans h1.2.1, h2.2.2.trans h1.2.2⟩

/-- Positional heap evolution: pre-existing objects keep their position and
id, never gain life, and keep `max_life`; new objects are appended. -/
def heapLE (h h' : List Ent) : Prop :=
  h.length ≤ h'.length ∧
  ∀ (i : Nat) (hi : i < h.length) (hi' : i < h'.length),
    entLE (h.get ⟨i, hi⟩) (h'.get ⟨i, hi'⟩)

theorem heapLE_refl (h : List Ent) : heapLE h h :=
  ⟨le_rfl, fun i hi _ => entLE_refl _⟩

theorem heapLE_trans {a b c : List Ent} (h1 : heapLE a b) (h2 : heapLE b c) :
    heapLE a c :=
  ⟨h1.1.trans h2.1, fun i hi hi' =>
    entLE_trans (h1.2 i hi (Nat.lt_of_lt_of_le hi h1.1))
      (h2.2 i (Nat.lt_of_lt_of_le hi h1.1) hi')⟩

theorem heapLE_append (h l : List Ent) : heapLE h (h ++ l) :=
  ⟨by simpa using Nat.le_add_right h.length l.length,
   fun i hi hi' => by
     rw [List.get_append i hi]
     exact entLE_refl _⟩

/-- `receive_damage` by a nonnegative amount preserves the object invariant
and is a life-monotone step. -/
theorem receive_damage_entInv (e : Ent) (amt : Q) (hamt : (0 : Q) ≤ amt)
    (he : EntInv e) : EntInv (e.receive_damage amt) := by
  obtain ⟨h1, h2, h3⟩ := he
  refine ⟨Q.le_trans' (Q.sub_le_self' _ _ hamt) h1, h2, ?_⟩
  intro ha
  show (0 : Q) ≤ e.life - amt
  have ha2 : (if e.life - amt ≤ 0 then false else e.active) = true := ha
  by_cases hc : e.life - amt ≤ (0 : Q)
  · rw [if_pos hc] at ha2
    exact Bool.noConfusion ha2
  · rw [Q.le_iff] at hc ⊢
    rw [Q.toRat_zero] at hc ⊢
    exact le_of_not_le hc

theorem receive_damage_entLE (e : Ent) (amt : Q) (hamt : (0 : Q) ≤ amt) :
    entLE e (e.receive_damage amt) :=
  ⟨Q.sub_le_self' _ _ hamt, rfl, rfl⟩

/-- `setObj` and `damageObj` never change the id layout of the heap. -/
theorem setObj_ids (h : List Ent) (e : Ent) :
    (setObj h e).map Ent.entity_id = h.map Ent.entity_id := by
  rw [setObj, List.map_map]
  refine List.map_congr_left ?_
  intro o _
  show (if o.entity_id == e.entity_id then e else o).entity_id = o.entity_id
  by_cases hc : o.entity_id == e.entity_id
  · rw [if_pos hc]
    exact (eq_of_beq hc).symm
  · rw [if_neg hc]

theorem damageObj_ids (h : List Ent) (tid : Nat) (amt : Q) :
    (damageObj h tid amt).map Ent.entity_id = h.map Ent.entity_id := by
  rw [damageObj, List.map_map]
  refine List.map_congr_left ?_
  intro o _
  show (if o.entity_id == tid then o.receive_damage amt else o).entity_id =
    o.entity_id
  by_cases hc : o.entity_id == tid
  · rw [if_pos hc]
    rfl
  · rw [if_neg hc]

/-- `damageObj` with a nonnegative amount is a heap step over any heap that
already evolved from `h`. -/
theorem heapLE_damageObj {h h' : List Ent} (tid : Nat) (amt : Q)
    (hle : heapLE h h') (hamt : (0 : Q) ≤ amt) :
    heapLE h (damageObj h' tid amt) := by
  refine heapLE_trans hle ⟨?_, ?_⟩
  · simp only [damageObj, List.length_map]
    exact le_rfl
  · intro i hi hi'
    simp only [damageObj, List.get_map]
    by_cases hc : (h'.get ⟨i, hi⟩).entity_id == tid
    · rw [if_pos hc]
      exact receive_damage_entLE _ _ hamt
    · rw [if_neg hc]
      exact entLE_refl _

theorem getObj_mem {h : List Ent} {i : Nat} {o : Ent}
    (hg : getObj h i = some o) : o ∈ h := by
  rw [getObj] at hg
  exact List.mem_of_find?_eq_some hg

theorem getObj_id {h : List Ent} {i : Nat} {o : Ent}
    (hg : getObj h i = some o) : o.entity_id = i := by
  rw [getObj] at hg
  have hbeq := List.find?_some hg
  exact eq_of_beq hbeq

/-- With duplicate-free ids, positions are determined by ids. -/
theorem nodup_id_get {h : List Ent}
    (hnd : (h.map Ent.entity_id).Nodup)
    (i j : Fin h.length)
    (hij : (h.get i).entity_id = (h.get j).entity_id) : i = j := by
  have hi' : (i : Nat) < (h.map Ent.entity_id).length := by
    rw [List.length_map]
    exact i.2
  have hj' : (j : Nat) < (h.map Ent.entity_id).length := by
    rw [List.length_map]
    exact j.2
  have hg : (h.map Ent.entity_id).get ⟨i, hi'⟩ =
      (h.map Ent.entity_id).get ⟨j, hj'⟩ := by
    rw [List.get_map, List.get_map]
    exact hij
  have h2 := (List.Nodup.get_inj_iff hnd).mp hg
  have h3 := congrArg Fin.val h2
  exact Fin.ext h3

/-- Writing back an object derived from the heap entry with its id is a
heap step, over any heap that already evolved from `h`. -/
theorem heapLE_setObj' {h h' : List Ent} {o e2 : Ent}
    (hle : heapLE h h')
    (hnd : (h.map Ent.entity_id).Nodup)
    (hget : getObj h e2.entity_id = some o)
    (hoe : entLE o e2) :
    heapLE h (setObj h' e2) := by
  refine ⟨?_, ?_⟩
  · rw [setObj, List.length_map]
    exact hle.1
  · intro i hi hi'
    have hi2 : i < h'.length := Nat.lt_of_lt_of_le hi hle.1
    simp only [setObj, List.get_map]
    by_cases hc : (h'.get ⟨i, hi2⟩).entity_id == e2.entity_id
    · rw [if_pos hc]
      have hid1 : (h'.get ⟨i, hi2⟩).entity_id = (h.get ⟨i, hi⟩).entity_id :=
        (hle.2 i hi hi2).2.2
      have hid2 : (h.get ⟨i, hi⟩).entity_id = e2.entity_id := by
        rw [← hid1]
        exact eq_of_beq hc
      obtain ⟨j, hj⟩ := List.mem_iff_get.mp (getObj_mem hget)
      have hoid : o.entity_id = e2.entity_id := getObj_id hget
      have hij : (⟨i, hi⟩ : Fin h.length) = j := by
        refine nodup_id_get hnd _ _ ?_
        rw [hj, hid2, hoid]
      have hgo : h.get ⟨i, hi⟩ = o := by
        rw [hij, hj]
      rw [hgo]
      exact hoe
    · rw [if_neg hc]
      exact hle.2 i hi hi2

theorem heapInv_setObj {h : List Ent} {e2 : Ent}
    (hinv : ∀ e ∈ h, EntInv e) (he2 : EntInv e2) :
    ∀ e ∈ setObj h e2, EntInv e := by
  intro e hm
  rw [setObj] at hm
  obtain ⟨o, ho, hoe⟩ := List.mem_map.mp hm
  by_cases hc : o.entity_id == e2.entity_id
  · rw [if_pos hc] at hoe
    rw [← hoe]
    exact he2
  · rw [if_neg hc] at hoe
    rw [← hoe]
    exact hinv o ho

theorem heapInv_damageObj {h : List Ent} {tid : Nat} {amt : Q}
    (hinv : ∀ e ∈ h, EntInv e) (hamt : (0 : Q) ≤ amt) :
    ∀ e ∈ damageObj h tid amt, EntInv e := by
  intro e hm
  rw [damageObj] at hm
  obtain ⟨o, ho, hoe⟩ := List.mem_map.mp hm
  by_cases hc : o.entity_id == tid
  · rw [if_pos hc] at hoe
    rw [← hoe]
    exact receive_damage_entInv o amt hamt (hinv o ho)
  · rw [if_neg hc] at hoe
    rw [← hoe]
    exact hinv o ho

theorem heapInv_append {h l : List Ent}
    (hinv : ∀ e ∈ h, EntInv e) (hl : ∀ e ∈ l, EntInv e) :
    ∀ e ∈ h ++ l, EntInv e := by
  intro e hm
  rw [List.mem_append] at hm
  cases hm with
  | inl hm => exact hinv e hm
  | inr hm => exact hl e hm

/-- `damageVictims` with a nonnegative amount: a heap step that keeps the
object invariant and the id layout. -/
theorem damageVictims_facts {amt : Q} (hamt : (0 : Q) ≤ amt) :
    ∀ (victims : List Nat) (h h0 h' : List Ent),
      damageVictims h victims amt = .ok h' →
      heapLE h0 h → (∀ e ∈ h, EntInv e) →
      heapLE h0 h' ∧ (∀ e ∈ h', EntInv e) ∧
      h'.map Ent.entity_id = h.map Ent.entity_id := by
  intro victims
  induction victims with
  | nil =>
      intro h h0 h' hd hle hinv
      rw [damageVictims] at hd
      injection hd with hd
      subst hd
      exact ⟨hle, hinv, rfl⟩
  | cons v rest ih =>
      intro h h0 h' hd hle hinv
      rw [damageVictims] at hd
      cases hg : getObj h v with
      | none => rw [hg] at hd; exact Except.noConfusion hd
      | some tgt =>
          rw [hg] at hd
          simp only [] at hd
          split at hd
          · obtain ⟨ha, hb, hc⟩ := ih (damageObj h v amt) h0 h' hd
              (heapLE_damageObj v amt hle hamt) (heapInv_damageObj hinv hamt)
            exact ⟨ha, hb, by rw [hc, damageObj_ids]⟩
          · exact ih h h0 h' hd hle hinv

/-- The update phase touches no life-related field and never revives. -/
def updLE (e e' : Ent) : Prop :=
  e'.life = e.life ∧ e'.max_life = e.max_life ∧ e'.damage = e.damage ∧
  e'.entity_id = e.entity_id ∧ (e'.active = true → e.active = true)

theorem updLE_refl (e : Ent) : updLE e e := ⟨rfl, rfl, rfl, rfl, fun h => h⟩

theorem updLE_trans {a b c : Ent} (h1 : updLE a b) (h2 : updLE b c) :
    updLE a c :=
  ⟨h2.1.trans h1.1, h2.2.1.trans h1.2.1, h2.2.2.1.trans h1.2.2.1,
   h2.2.2.2.1.trans h1.2.2.2.1, fun h => h1.2.2.2.2 (h2.2.2.2.2 h)⟩

theorem updLE_entLE {a b : Ent} (h : updLE a b) : entLE a b :=
  ⟨by rw [h.1]; exact Q.le_refl' _, h.2.1, h.2.2.2.1⟩

theorem updLE_entInv {a b : Ent} (h : updLE a b) (ha : EntInv a) : EntInv b := by
  obtain ⟨h1, h2, h3, h4, h5⟩ := h
  obtain ⟨g1, g2, g3⟩ := ha
  exact ⟨by rw [h1, h2]; exact g1, by rw [h3]; exact g2,
    fun hb => by rw [h1]; exact g3 (h5 hb)⟩

theorem tower_look_updLE (sq : Sqrt) (entities : List Ent) (self : Ent) :
    updLE self (self.tower_look_for_target sq entities) := by
  rw [Ent.tower_look_for_target]
  repeat'
    first
      | split
      | (simp only [])
  all_goals exact ⟨rfl, rfl, rfl, rfl, fun h => h⟩

theorem troop_look_updLE (sq : Sqrt) (entities : List Ent) (self : Ent) :
    updLE self (self.troop_look_for_target sq entities) := by
  rw [Ent.troop_look_for_target]
  repeat'
    first
      | split
      | (simp only [])
  all_goals exact ⟨rfl, rfl, rfl, rfl, fun h => h⟩

theorem tower_update_updLE (sq : Sqrt) (heap entities : List Ent)
    (self e' : Ent) (h : self.tower_update sq heap entities = .ok e') :
    updLE self e' := by
  rw [Ent.tower_update] at h
  simp only [Except.bind, Bind.bind, Except.pure, Pure.pure] at h
  repeat'
    first
      | (split at h)
      | (simp only [Except.bind] at h)
  all_goals
    first
      | exact Except.noConfusion h
      | (injection h with h; subst h
         first
           | exact ⟨rfl, rfl, rfl, rfl, fun hh => hh⟩
           | exact ⟨rfl, rfl, rfl, rfl, fun hh => Bool.noConfusion hh⟩
           | exact updLE_trans ⟨rfl, rfl, rfl, rfl, fun hh => hh⟩
               (tower_look_updLE _ _ _))

theorem troop_update_updLE (sq : Sqrt) (heap entities : List Ent) (dt : Q)
    (self e' : Ent) (h : self.troop_update sq heap entities dt = .ok e') :
    updLE self e' := by
  rw [Ent.troop_update] at h
  simp only [Except.bind, Bind.bind, Except.pure, Pure.pure] at h
  repeat'
    first
      | (split at h)
      | (simp only [Except.bind] at h)
  all_goals
    first
      | exact Except.noConfusion h
      | (injection h with h; subst h
         first
           | exact ⟨rfl, rfl, rfl, rfl, fun hh => hh⟩
           | exact ⟨rfl, rfl, rfl, rfl, fun hh => Bool.noConfusion hh⟩
           | exact updLE_trans ⟨rfl, rfl, rfl, rfl, fun hh => hh⟩
               (troop_look_updLE _ _ _))

theorem spell_update_updLE (dt : Q) (self : Ent) :
    updLE self (self.spell_update dt) := by
  rw [Ent.spell_update]
  split
  · exact ⟨rfl, rfl, rfl, rfl, fun hh => Bool.noConfusion hh⟩
  · exact ⟨rfl, rfl, rfl, rfl, fun hh => hh⟩

theorem projectile_update_updLE (heap : List Ent) (self e' : Ent)
    (h : self.projectile_update heap = .ok e') : updLE self e' := by
  rw [Ent.projectile_update] at h
  repeat'
    first
      | (split at h)
      | (simp only [Except.bind] at h)
  all_goals
    first
      | exact Except.noConfusion h
      | (injection h with h; subst h; exact ⟨rfl, rfl, rfl, rfl, fun hh => hh⟩)

theorem foldl_updLE {α : Type} (f : Ent → α → Ent)
    (hf : ∀ s x, updLE s (f s x)) :
    ∀ (l : List α) (s : Ent), updLE s (l.foldl f s) := by
  intro l
  induction l with
  | nil => intro s; exact updLE_refl s
  | cons x xs ih => intro s; exact updLE_trans (hf s x) (ih (f s x))

theorem area_update_updLE (sq : Sqrt) (heap entities : List Ent)
    (self e' : Ent) (h : self.area_projectile_update sq heap entities = .ok e') :
    updLE self e' := by
  rw [Ent.area_projectile_update] at h
  repeat'
    first
      | (split at h)
      | (simp only [Except.bind] at h)
  all_goals
    first
      | exact Except.noConfusion h
      | (injection h with h; subst h; exact ⟨rfl, rfl, rfl, rfl, fun hh => hh⟩)
      | (injection h with h; subst h
         exact foldl_updLE _
           (fun s x => by
             repeat' split
             all_goals exact ⟨rfl, rfl, rfl, rfl, fun hh => hh⟩)
           entities self)

theorem update_updLE (sq : Sqrt) (heap entities : List Ent) (dt : Q)
    (self e' : Ent) (h : self.update sq heap entities dt = .ok e') :
    updLE self e' := by
  rw [Ent.update] at h
  cases ht : self.type with
  | tower => rw [ht] at h; exact tower_update_updLE _ _ _ _ _ h
  | troop => rw [ht] at h; exact troop_update_updLE _ _ _ _ _ _ h
  | spell =>
      rw [ht] at h
      injection h with h
      subst h
      exact spell_update_updLE _ _
  | projectile =>
      rw [ht] at h
      simp only [] at h
      split at h
      · exact area_update_updLE _ _ _ _ _ h
      · exact projectile_update_updLE _ _ _ h

theorem idsBound_of_map_eq {h h' : List Ent} {c : Nat}
    (hmap : h'.map Ent.entity_id = h.map Ent.entity_id)
    (hb : ∀ e ∈ h, e.entity_id ≤ c) : ∀ e ∈ h', e.entity_id ≤ c := by
  intro e hm
  have hx : e.entity_id ∈ h'.map Ent.entity_id := List.mem_map_of_mem _ hm
  rw [hmap] at hx
  obtain ⟨o, ho, hoe⟩ := List.mem_map.mp hx
  rw [← hoe]
  exact hb o ho

/-- C6's board invariant: every heap object satisfies its invariant, heap
ids are duplicate-free, and all ids are within the counter. -/
def C6Inv (b : Board) : Prop :=
  (∀ e ∈ b.heap, EntInv e) ∧ (b.heap.map Ent.entity_id).Nodup ∧
  ∀ e ∈ b.heap, e.entity_id ≤ b.counter

/-- Writing back a life-preserving modification of a heap object, over any
heap evolved from `h0`. -/
theorem setObj_c6 {h0 h1 : List Ent} {self e2 : Ent} {c : Nat}
    (hle : heapLE h0 h1)
    (hN0 : (h0.map Ent.entity_id).Nodup)
    (hget : getObj h0 self.entity_id = some self)
    (hu : updLE self e2)
    (hself : EntInv self)
    (hI1 : ∀ e ∈ h1, EntInv e)
    (hN1 : (h1.map Ent.entity_id).Nodup)
    (hB1 : ∀ e ∈ h1, e.entity_id ≤ c) :
    heapLE h0 (setObj h1 e2) ∧ (∀ e ∈ setObj h1 e2, EntInv e) ∧
    ((setObj h1 e2).map Ent.entity_id).Nodup ∧
    (∀ e ∈ setObj h1 e2, e.entity_id ≤ c) := by
  have hE2 : EntInv e2 := updLE_entInv hu hself
  have hget2 : getObj h0 e2.entity_id = some self := by
    rw [hu.2.2.2.1]
    exact hget
  refine ⟨heapLE_setObj' hle hN0 hget2 (updLE_entLE hu),
    heapInv_setObj hI1 hE2, ?_, idsBound_of_map_eq (setObj_ids _ _) hB1⟩
  rw [setObj_ids]
  exact hN1

/-- Appending a freshly constructed object with the successor id. -/
theorem append_c6 {h : List Ent} {p : Ent} {c c' : Nat}
    (hI : ∀ e ∈ h, EntInv e) (hN : (h.map Ent.entity_id).Nodup)
    (hB : ∀ e ∈ h, e.entity_id ≤ c)
    (hp : EntInv p) (hpid : p.entity_id = c + 1) (hc' : c + 1 ≤ c') :
    (∀ e ∈ h ++ [p], EntInv e) ∧ ((h ++ [p]).map Ent.entity_id).Nodup ∧
    (∀ e ∈ h ++ [p], e.entity_id ≤ c') := by
  refine ⟨heapInv_append hI ?_, ?_, ?_⟩
  · intro e hm
    rw [List.mem_singleton] at hm
    subst hm
    exact hp
  · rw [List.map_append]
    refine List.Nodup.append hN (List.nodup_singleton _) ?_
    intro x hx hy
    rw [List.map_singleton, List.mem_singleton] at hy
    subst hy
    obtain ⟨o, ho, hoe⟩ := List.mem_map.mp hx
    have hob := hB o ho
    rw [hoe, hpid] at hob
    omega
  · intro e hm
    rw [List.mem_append, List.mem_singleton] at hm
    cases hm with
    | inl hm => exact le_trans (hB e hm) (le_trans (Nat.le_succ c) hc')
    | inr hm =>
        subst hm
        rw [hpid]
        exact hc'

theorem mkTroop_fields (kind : TroopKind) (x y life : Q) (o : Option String)
    (dmg sp rg hs ps : Q) (c : Nat) (e : Ent) (c' : Nat)
    (h : mkTroop kind x y life o dmg sp rg hs ps c = .ok (e, c')) :
    e.life = life ∧ e.max_life = life ∧ e.damage = dmg ∧ e.active = true := by
  rw [mkTroop] at h
  simp only [Except.bind, Bind.bind, Except.pure, Pure.pure] at h
  cases hei : entityInit x y c with
  | error s => rw [hei] at h; exact Except.noConfusion h
  | ok v =>
      rw [hei] at h
      obtain ⟨⟨px, py⟩, i, c2⟩ := v
      simp only [] at h
      injection h with h
      injection h with h1 h2
      subst h1
      subst h2
      exact ⟨rfl, rfl, rfl, rfl⟩

theorem mkProjectile_fields (heap : List Ent) (x y : Q) (o : Option String)
    (s : Q) (t : Option Nat) (d : Q) (c : Nat) (p : Ent) (c' : Nat)
    (h : mkProjectile heap x y o s t d c = .ok (p, c')) :
    p.life = 0 ∧ p.max_life = 0 ∧ p.damage = d ∧ p.active = true := by
  rw [mkProjectile] at h
  simp only [Except.bind, Bind.bind, Except.pure, Pure.pure] at h
  cases hei : entityInit x y c with
  | error s2 => rw [hei] at h; exact Except.noConfusion h
  | ok v =>
      rw [hei] at h
      obtain ⟨⟨px, py⟩, i, c2⟩ := v
      simp only [] at h
      repeat' split at h
      all_goals try simp only [Except.bind] at h
      all_goals
        first
          | exact Except.noConfusion h
          | (injection h with h
             injection h with h1 h2
             subst h1
             subst h2
             exact ⟨rfl, rfl, rfl, rfl⟩)

theorem mkAreaProjectile_fields (heap : List Ent) (x y : Q) (o : Option String)
    (s : Q) (t : Option Nat) (d r : Q) (c : Nat) (p : Ent) (c' : Nat)
    (h : mkAreaProjectile heap x y o s t d r c = .ok (p, c')) :
    p.life = 0 ∧ p.max_life = 0 ∧ p.damage = d ∧ p.active = true := by
  rw [mkAreaProjectile] at h
  simp only [Except.bind, Bind.bind, Except.pure, Pure.pure] at h
  cases hmp : mkProjectile heap x y o s t d c with
  | error s2 => rw [hmp] at h; exact Except.noConfusion h
  | ok v =>
      rw [hmp] at h
      obtain ⟨q, c2⟩ := v
      obtain ⟨g1, g2, g3, g4⟩ := mkProjectile_fields heap x y o s t d c q c2 hmp
      simp only [] at h
      injection h with h
      injection h with h1 h2
      subst h1
      subst h2
      exact ⟨g1, g2, g3, g4⟩

/-- A fresh projectile (damage copied from a shooter with nonnegative
damage) satisfies the object invariant. -/
theorem projectile_entInv {p : Ent} (hl : p.life = 0) (hm : p.max_life = 0)
    (hd : (0 : Q) ≤ p.damage) : EntInv p := by
  refine ⟨?_, hd, ?_⟩
  · rw [hl, hm]
    exact Q.le_refl' _
  · intro _
    rw [hl]
    exact Q.le_refl' _

theorem projectile_move_updLE (sq : Sqrt) (dt : Q) (self e' : Ent)
    (h : self.projectile_move_towards sq dt = .ok e') : updLE self e' := by
  rw [Ent.projectile_move_towards] at h
  repeat'
    first
      | (split at h)
      | (simp only [Except.bind] at h)
  all_goals
    first
      | exact Except.noConfusion h
      | (injection h with h; subst h; exact ⟨rfl, rfl, rfl, rfl, fun hh => hh⟩)

theorem troop_move_updLE (sq : Sqrt) (self : Ent) (heap : List Ent)
    (obstacles : List (Int × Int)) (dt : Q) (e' : Ent)
    (h : self.troop_move_towards sq heap obstacles dt = .ok e') :
    updLE self e' := by
  rw [Ent.troop_move_towards] at h
  simp only [Except.bind, Bind.bind, Except.pure, Pure.pure] at h
  repeat'
    first
      | (split at h)
      | (simp only [Except.bind] at h)
  all_goals
    first
      | exact Except.noConfusion h
      | (injection h with h; subst h; exact ⟨rfl, rfl, rfl, rfl, fun hh => hh⟩)

/-- `Tower.execute` as a C6 step. -/
theorem tower_execute_c6 (sq : Sqrt) (dt : Q) (b b' : Board) (self : Ent)
    (h : self.tower_execute sq dt b = .ok b')
    (hI : ∀ e ∈ b.heap, EntInv e) (hN : (b.heap.map Ent.entity_id).Nodup)
    (hB : ∀ e ∈ b.heap, e.entity_id ≤ b.counter)
    (hget : getObj b.heap self.entity_id = some self) :
    (∀ e ∈ b'.heap, EntInv e) ∧ (b'.heap.map Ent.entity_id).Nodup ∧
    (∀ e ∈ b'.heap, e.entity_id ≤ b'.counter) ∧
    heapLE b.heap b'.heap ∧ b.counter ≤ b'.counter := by
  have hself : EntInv self := hI self (getObj_mem hget)
  rw [Ent.tower_execute] at h
  simp only [Except.bind, Bind.bind, Except.pure, Pure.pure] at h
  cases htg : self.target with
  | none =>
      rw [htg] at h
      simp only [] at h
      injection h with h
      subst h
      obtain ⟨w1, w2, w3, w4⟩ := setObj_c6 (heapLE_refl _) hN hget
        (show updLE self
            { self with cooldown := self.cooldown - dt, target := none } from
          ⟨rfl, rfl, rfl, rfl, fun hh => hh⟩) hself hI hN hB
      exact ⟨w2, w3, w4, w1, le_rfl⟩
  | some tid =>
      rw [htg] at h
      simp only [] at h
      split at h
      · cases hgo : getObj b.heap tid with
        | none => rw [hgo] at h; exact Except.noConfusion h
        | some tgt =>
            rw [hgo] at h
            simp only [] at h
            split at h
            · cases hmp : mkProjectile b.heap self.x self.y self.owner 5
                  (some tid) self.damage b.counter with
              | error s => rw [hmp] at h; exact Except.noConfusion h
              | ok v =>
                  obtain ⟨p, c2⟩ := v
                  rw [hmp] at h
                  simp only [Except.bind] at h
                  injection h with h
                  subst h
                  obtain ⟨hi, hc⟩ := mkProjectile_ids _ _ _ _ _ _ _ _ _ _ hmp
                  obtain ⟨g1, g2, g3, g4⟩ :=
                    mkProjectile_fields _ _ _ _ _ _ _ _ _ _ hmp
                  subst hc
                  have hpinv : EntInv p := projectile_entInv g1 g2
                    (by rw [g3]; exact hself.2.1)
                  obtain ⟨a1, a2, a3⟩ := append_c6 hI hN hB hpinv hi le_rfl
                  obtain ⟨w1, w2, w3, w4⟩ := setObj_c6
                    (heapLE_append b.heap [p]) hN hget
                    (show updLE self
                        { self with cooldown := self.hit_speed,
                                    target := some tid } from
                      ⟨rfl, rfl, rfl, rfl, fun hh => hh⟩) hself a1 a2 a3
                  exact ⟨w2, w3, w4, w1, Nat.le_succ _⟩
            · injection h with h
              subst h
              obtain ⟨w1, w2, w3, w4⟩ := setObj_c6 (heapLE_refl _) hN hget
                (show updLE self
                    { self with cooldown := self.cooldown - dt,
                                target := some tid } from
                  ⟨rfl, rfl, rfl, rfl, fun hh => hh⟩) hself hI hN hB
              exact ⟨w2, w3, w4, w1, le_rfl⟩
      · injection h with h
        subst h
        obtain ⟨w1, w2, w3, w4⟩ := setObj_c6 (heapLE_refl _) hN hget
          (show updLE self
              { self with cooldown := self.cooldown - dt,
                          target := some tid } from
            ⟨rfl, rfl, rfl, rfl, fun hh => hh⟩) hself hI hN hB
        exact ⟨w2, w3, w4, w1, le_rfl⟩

/-- `Troop.attack` as a C6 step (the board, before the cooldown
write-back). -/
theorem troop_attack_c6 (sq : Sqrt) (b b' : Board) (self : Ent)
    (h : self.troop_attack sq b = .ok b')
    (hI : ∀ e ∈ b.heap, EntInv e) (hN : (b.heap.map Ent.entity_id).Nodup)
    (hB : ∀ e ∈ b.heap, e.entity_id ≤ b.counter)
    (hself : EntInv self) :
    (∀ e ∈ b'.heap, EntInv e) ∧ (b'.heap.map Ent.entity_id).Nodup ∧
    (∀ e ∈ b'.heap, e.entity_id ≤ b'.counter) ∧
    heapLE b.heap b'.heap ∧ b.counter ≤ b'.counter := by
  rw [Ent.troop_attack] at h
  simp only [Except.bind, Bind.bind, Except.pure, Pure.pure] at h
  cases hk : self.troop_kind with
  | caballero =>
      rw [hk] at h
      simp only [] at h
      repeat'
        first
          | (split at h)
          | (simp only [Except.bind] at h)
      all_goals
        first
          | exact Except.noConfusion h
          | (injection h with h; subst h
             exact ⟨hI, hN, hB, heapLE_refl _, le_rfl⟩)
          | (injection h with h; subst h
             refine ⟨heapInv_damageObj hI hself.2.1, ?_,
               idsBound_of_map_eq (damageObj_ids _ _ _) hB,
               heapLE_damageObj _ _ (heapLE_refl _) hself.2.1, le_rfl⟩
             rw [damageObj_ids]
             exact hN)
  | mosquetera =>
      rw [hk] at h
      simp only [] at h
      cases hmp : mkProjectile b.heap self.x self.y self.owner
          self.projectile_speed self.target self.damage b.counter with
      | error s => rw [hmp] at h; exact Except.noConfusion h
      | ok v =>
          obtain ⟨p, c2⟩ := v
          rw [hmp] at h
          simp only [Except.bind] at h
          injection h with h
          subst h
          obtain ⟨hi, hc⟩ := mkProjectile_ids _ _ _ _ _ _ _ _ _ _ hmp
          obtain ⟨g1, g2, g3, g4⟩ := mkProjectile_fields _ _ _ _ _ _ _ _ _ _ hmp
          subst hc
          have hpinv : EntInv p := projectile_entInv g1 g2
            (by rw [g3]; exact hself.2.1)
          obtain ⟨a1, a2, a3⟩ := append_c6 hI hN hB hpinv hi le_rfl
          exact ⟨a1, a2, a3, heapLE_append _ _, Nat.le_succ _⟩
  | mago =>
      rw [hk] at h
      simp only [] at h
      cases hmp : mkAreaProjectile b.heap self.x self.y self.owner
          self.projectile_speed self.target self.damage (3/2) b.counter with
      | error s => rw [hmp] at h; exact Except.noConfusion h
      | ok v =>
          obtain ⟨p, c2⟩ := v
          rw [hmp] at h
          simp only [Except.bind] at h
          injection h with h
          subst h
          obtain ⟨hi, hc⟩ := mkAreaProjectile_ids _ _ _ _ _ _ _ _ _ _ _ hmp
          obtain ⟨g1, g2, g3, g4⟩ :=
            mkAreaProjectile_fields _ _ _ _ _ _ _ _ _ _ _ hmp
          subst hc
          have hpinv : EntInv p := projectile_entInv g1 g2
            (by rw [g3]; exact hself.2.1)
          obtain ⟨a1, a2, a3⟩ := append_c6 hI hN hB hpinv hi le_rfl
          exact ⟨a1, a2, a3, heapLE_append _ _, Nat.le_succ _⟩

/-- `Troop.execute` as a C6 step. -/
theorem troop_execute_c6 (sq : Sqrt) (dt : Q) (b b' : Board) (self : Ent)
    (h : self.troop_execute sq dt b = .ok b')
    (hI : ∀ e ∈ b.heap, EntInv e) (hN : (b.heap.map Ent.entity_id).Nodup)
    (hB : ∀ e ∈ b.heap, e.entity_id ≤ b.counter)
    (hget : getObj b.heap self.entity_id = some self) :
    (∀ e ∈ b'.heap, EntInv e) ∧ (b'.heap.map Ent.entity_id).Nodup ∧
    (∀ e ∈ b'.heap, e.entity_id ≤ b'.counter) ∧
    heapLE b.heap b'.heap ∧ b.counter ≤ b'.counter := by
  have hself : EntInv self := hI self (getObj_mem hget)
  rw [Ent.troop_execute] at h
  simp only [Except.bind, Bind.bind, Except.pure, Pure.pure] at h
  cases hst : self.state with
  | attacking =>
      rw [hst] at h
      simp only [] at h
      split at h
      · split at h
        · exact Except.noConfusion h
        · rename_i b1 heq
          injection h with h
          subst h
          obtain ⟨a1, a2, a3, a4, a5⟩ := troop_attack_c6 sq b b1 _ heq hI hN hB
            (updLE_entInv
              (show updLE self
                  { self with cooldown := self.cooldown - dt,
                              state := StateType.attacking } from
                ⟨rfl, rfl, rfl, rfl, fun hh => hh⟩) hself)
          obtain ⟨w1, w2, w3, w4⟩ := setObj_c6 a4 hN hget
            (show updLE self
                { self with cooldown := self.hit_speed,
                            state := StateType.attacking } from
              ⟨rfl, rfl, rfl, rfl, fun hh => hh⟩) hself a1 a2 a3
          exact ⟨w2, w3, w4, w1, a5⟩
      · injection h with h
        subst h
        obtain ⟨w1, w2, w3, w4⟩ := setObj_c6 (heapLE_refl _) hN hget
          (show updLE self
              { self with cooldown := self.cooldown - dt,
                          state := StateType.attacking } from
            ⟨rfl, rfl, rfl, rfl, fun hh => hh⟩) hself hI hN hB
        exact ⟨w2, w3, w4, w1, le_rfl⟩
  | moving =>
      rw [hst] at h
      simp only [] at h
      split at h
      · exact Except.noConfusion h
      · rename_i e1 heq
        injection h with h
        subst h
        obtain ⟨w1, w2, w3, w4⟩ := setObj_c6 (heapLE_refl _) hN hget
          (troop_move_updLE sq self b.heap b.obstacles dt e1 heq) hself hI hN hB
        exact ⟨w2, w3, w4, w1, le_rfl⟩
  | idle =>
      rw [hst] at h
      simp only [] at h
      injection h with h
      subst h
      exact ⟨hI, hN, hB, heapLE_refl _, le_rfl⟩

/-- `Projectile.execute` / `AreaProjectile.execute` as a C6 step. -/
theorem projectile_execute_c6 (sq : Sqrt) (dt : Q) (b b' : Board) (self : Ent)
    (h : self.projectile_execute sq dt b = .ok b')
    (hI : ∀ e ∈ b.heap, EntInv e) (hN : (b.heap.map Ent.entity_id).Nodup)
    (hB : ∀ e ∈ b.heap, e.entity_id ≤ b.counter)
    (hget : getObj b.heap self.entity_id = some self) :
    (∀ e ∈ b'.heap, EntInv e) ∧ (b'.heap.map Ent.entity_id).Nodup ∧
    (∀ e ∈ b'.heap, e.entity_id ≤ b'.counter) ∧
    heapLE b.heap b'.heap ∧ b.counter ≤ b'.counter := by
  have hself : EntInv self := hI self (getObj_mem hget)
  rw [Ent.projectile_execute] at h
  split at h
  · injection h with h
    subst h
    exact ⟨hI, hN, hB, heapLE_refl _, le_rfl⟩
  · simp only [Except.bind, Bind.bind, Except.pure, Pure.pure] at h
    cases hmv : Ent.projectile_move_towards sq dt
        { self with elapsed_time := self.elapsed_time + dt } with
    | error s => rw [hmv] at h; exact Except.noConfusion h
    | ok self2 =>
        rw [hmv] at h
        simp only [] at h
        have hu : updLE self self2 := updLE_trans
          (show updLE self { self with elapsed_time := self.elapsed_time + dt }
            from ⟨rfl, rfl, rfl, rfl, fun hh => hh⟩)
          (projectile_move_updLE _ _ _ _ hmv)
        have hdmg : (0 : Q) ≤ self2.damage := by
          rw [hu.2.2.1]
          exact hself.2.1
        cases htp : self2.target_pos with
        | none => rw [htp] at h; exact Except.noConfusion h
        | some tp =>
            rw [htp] at h
            simp only [] at h
            split at h
            · -- area projectile
              split at h
              · cases hdv : damageVictims b.heap self2.troops_hit
                    self2.damage with
                | error s => rw [hdv] at h; exact Except.noConfusion h
                | ok hh1 =>
                    rw [hdv] at h
                    simp only [] at h
                    injection h with h
                    subst h
                    obtain ⟨d1, d2, d3⟩ := damageVictims_facts hdmg
                      self2.troops_hit b.heap b.heap hh1 hdv (heapLE_refl _) hI
                    obtain ⟨w1, w2, w3, w4⟩ := setObj_c6 d1 hN hget
                      (show updLE self
                          (if self2.max_duration < self2.elapsed_time then
                            { self2 with active := false,
                                         target_pos := some tp }
                          else
                            { self2 with active := false,
                                         target_pos := some tp }) from by
                        split <;>
                          exact updLE_trans hu
                            ⟨rfl, rfl, rfl, rfl, fun hh => Bool.noConfusion hh⟩)
                      hself d2 (by rw [d3]; exact hN)
                      (idsBound_of_map_eq d3 hB)
                    exact ⟨w2, w3, w4, w1, le_rfl⟩

              · injection h with h
                subst h
                obtain ⟨w1, w2, w3, w4⟩ := setObj_c6 (heapLE_refl _) hN hget
                  (show updLE self
                    (if self2.max_duration < self2.elapsed_time then
                      { self2 with active := false, target_pos := some tp } else self2) from by
                  split
                  · exact updLE_trans hu
                      ⟨rfl, rfl, rfl, rfl, fun hh => Bool.noConfusion hh⟩
                  · exact hu) hself hI hN hB
                exact ⟨w2, w3, w4, w1, le_rfl⟩
            · -- plain projectile
              cases htg : self2.target with
              | some tid =>
                  rw [htg] at h
                  simp only [] at h
                  split at h
                  · cases hgo : getObj b.heap tid with
                    | none => rw [hgo] at h; exact Except.noConfusion h
                    | some tgt =>
                        rw [hgo] at h
                        simp only [] at h
                        split at h
                        · try simp only [] at h
                          injection h with h
                          subst h
                          obtain ⟨w1, w2, w3, w4⟩ := setObj_c6
                            (heapLE_damageObj tid self2.damage
                              (heapLE_refl _) hdmg) hN hget
                            (show updLE self
                                (if self2.max_duration < self2.elapsed_time then
                                  { self2 with active := false,
                                               target := some tid,
                                               target_pos := some tp }
                                else
                                  { self2 with active := false,
                                               target := some tid,
                                               target_pos := some tp }) from by
                              split <;>
                                exact updLE_trans hu
                                  ⟨rfl, rfl, rfl, rfl,
                                   fun hh => Bool.noConfusion hh⟩)
                            hself (heapInv_damageObj hI hdmg)
                            (by rw [damageObj_ids]; exact hN)
                            (idsBound_of_map_eq (damageObj_ids _ _ _) hB)
                          exact ⟨w2, w3, w4, w1, le_rfl⟩

                        · try simp only [] at h
                          injection h with h
                          subst h
                          obtain ⟨w1, w2, w3, w4⟩ := setObj_c6 (heapLE_refl _)
                            hN hget (show updLE self
                    (if self2.max_duration < self2.elapsed_time then
                      { self2 with active := false, target := some tid,
                                   target_pos := some tp } else self2) from by
                  split
                  · exact updLE_trans hu
                      ⟨rfl, rfl, rfl, rfl, fun hh => Bool.noConfusion hh⟩
                  · exact hu) hself hI hN hB
                          exact ⟨w2, w3, w4, w1, le_rfl⟩
                  · try simp only [] at h
                    injection h with h
                    subst h
                    obtain ⟨w1, w2, w3, w4⟩ := setObj_c6 (heapLE_refl _) hN hget
                      (show updLE self
                    (if self2.max_duration < self2.elapsed_time then
                      { self2 with active := false, target := some tid,
                                   target_pos := some tp } else self2) from by
                  split
                  · exact updLE_trans hu
                      ⟨rfl, rfl, rfl, rfl, fun hh => Bool.noConfusion hh⟩
                  · exact hu) hself hI hN hB
                    exact ⟨w2, w3, w4, w1, le_rfl⟩
              | none =>
                  rw [htg] at h
                  try simp only [] at h
                  injection h with h
                  subst h
                  obtain ⟨w1, w2, w3, w4⟩ := setObj_c6 (heapLE_refl _) hN hget
                    (show updLE self
                    (if self2.max_duration < self2.elapsed_time then
                      { self2 with active := false, target := none,
                                   target_pos := some tp } else self2) from by
                  split
                  · exact updLE_trans hu
                      ⟨rfl, rfl, rfl, rfl, fun hh => Bool.noConfusion hh⟩
                  · exact hu) hself hI hN hB
                  exact ⟨w2, w3, w4, w1, le_rfl⟩

/-- `Entity.execute` as a C6 step. -/
theorem execute_c6 (sq : Sqrt) (dt : Q) (b b' : Board) (self : Ent)
    (h : self.execute sq dt b = .ok b')
    (hI : ∀ e ∈ b.heap, EntInv e) (hN : (b.heap.map Ent.entity_id).Nodup)
    (hB : ∀ e ∈ b.heap, e.entity_id ≤ b.counter)
    (hget : getObj b.heap self.entity_id = some self) :
    (∀ e ∈ b'.heap, EntInv e) ∧ (b'.heap.map Ent.entity_id).Nodup ∧
    (∀ e ∈ b'.heap, e.entity_id ≤ b'.counter) ∧
    heapLE b.heap b'.heap ∧ b.counter ≤ b'.counter := by
  rw [Ent.execute] at h
  cases ht : self.type with
  | tower => rw [ht] at h; exact tower_execute_c6 sq dt b b' self h hI hN hB hget
  | troop => rw [ht] at h; exact troop_execute_c6 sq dt b b' self h hI hN hB hget
  | spell =>
      rw [ht] at h
      injection h with h
      subst h
      exact ⟨hI, hN, hB, heapLE_refl _, le_rfl⟩
  | projectile =>
      rw [ht] at h
      exact projectile_execute_c6 sq dt b b' self h hI hN hB hget

/-- The update phase as a C6 step. -/
theorem updatePhase_c6 (sq : Sqrt) (dt : Q) (b b' : Board)
    (h : b.updatePhase sq dt = .ok b') (hinv : C6Inv b) :
    C6Inv b' ∧ heapLE b.heap b'.heap ∧ b.counter ≤ b'.counter := by
  rw [Board.updatePhase] at h
  have hstep : ∀ (eid : Nat) (bd bd' : Board), C6Inv bd →
      (match getObj bd.heap eid with
       | none => Except.ok bd
       | some e => (e.update sq bd.heap bd.liveEnts dt).map
           (fun e2 => { bd with heap := setObj bd.heap e2 })) = .ok bd' →
      C6Inv bd' ∧ (heapLE bd.heap bd'.heap ∧ bd.counter ≤ bd'.counter) := by
    intro eid bd bd' hP hf
    obtain ⟨hI, hN, hB⟩ := hP
    cases hgo : getObj bd.heap eid with
    | none =>
        rw [hgo] at hf
        injection hf with hf
        subst hf
        exact ⟨⟨hI, hN, hB⟩, heapLE_refl _, le_rfl⟩
    | some e =>
        rw [hgo] at hf
        simp only [] at hf
        cases hup : e.update sq bd.heap bd.liveEnts dt with
        | error s => rw [hup] at hf; exact Except.noConfusion hf
        | ok e2 =>
            rw [hup] at hf
            simp only [Except.map] at hf
            injection hf with hf
            subst hf
            have hu := update_updLE sq bd.heap bd.liveEnts dt e e2 hup
            have hget2 : getObj bd.heap e.entity_id = some e := by
              rw [getObj_id hgo]
              exact hgo
            obtain ⟨w1, w2, w3, w4⟩ := setObj_c6 (heapLE_refl _) hN hget2 hu
              (hI e (getObj_mem hgo)) hI hN hB
            exact ⟨⟨w2, w3, w4⟩, w1, le_rfl⟩
  have hres := foldl_bind_inv C6Inv
    (fun x y => heapLE x.heap y.heap ∧ x.counter ≤ y.counter)
    (fun bd => ⟨heapLE_refl _, le_rfl⟩)
    (fun a b c h1 h2 => ⟨heapLE_trans h1.1 h2.1, le_trans h1.2 h2.2⟩)
    _ hstep b.entities b b' hinv h
  exact ⟨hres.1, hres.2.1, hres.2.2⟩

/-- The execute phase as a C6 step. -/
theorem executePhase_c6 (sq : Sqrt) (dt : Q) (b b' : Board)
    (h : b.executePhase sq dt = .ok b') (hinv : C6Inv b) :
    C6Inv b' ∧ heapLE b.heap b'.heap ∧ b.counter ≤ b'.counter := by
  rw [Board.executePhase] at h
  have hstep : ∀ (eid : Nat) (bd bd' : Board), C6Inv bd →
      (match getObj bd.heap eid with
       | none => Except.ok bd
       | some e => e.execute sq dt bd) = .ok bd' →
      C6Inv bd' ∧ (heapLE bd.heap bd'.heap ∧ bd.counter ≤ bd'.counter) := by
    intro eid bd bd' hP hf
    obtain ⟨hI, hN, hB⟩ := hP
    cases hgo : getObj bd.heap eid with
    | none =>
        rw [hgo] at hf
        injection hf with hf
        subst hf
        exact ⟨⟨hI, hN, hB⟩, heapLE_refl _, le_rfl⟩
    | some e =>
        rw [hgo] at hf
        have hget2 : getObj bd.heap e.entity_id = some e := by
          rw [getObj_id hgo]
          exact hgo
        obtain ⟨a1, a2, a3, a4, a5⟩ := execute_c6 sq dt bd bd' e hf hI hN hB hget2
        exact ⟨⟨a1, a2, a3⟩, a4, a5⟩
  have hres := foldl_bind_inv C6Inv
    (fun x y => heapLE x.heap y.heap ∧ x.counter ≤ y.counter)
    (fun bd => ⟨heapLE_refl _, le_rfl⟩)
    (fun a b c h1 h2 => ⟨heapLE_trans h1.1 h2.1, le_trans h1.2 h2.2⟩)
    _ hstep b.entities b b' hinv h
  exact ⟨hres.1, hres.2.1, hres.2.2⟩

/-- `Board.update` (both phases plus reaping) as a C6 step: reaping touches
only the reference lists, not the heap. -/
theorem update_c6 (sq : Sqrt) (dt : Q) (b b' : Board)
    (h : b.update sq dt = .ok b') (hinv : C6Inv b) :
    C6Inv b' ∧ heapLE b.heap b'.heap ∧ b.counter ≤ b'.counter := by
  rw [Board.update] at h
  simp only [Except.bind, Bind.bind, Except.pure, Pure.pure] at h
  cases hA : b.updatePhase sq dt with
  | error s => rw [hA] at h; exact Except.noConfusion h
  | ok bA =>
      rw [hA] at h
      simp only [Except.bind] at h
      cases hB2 : bA.executePhase sq dt with
      | error s => rw [hB2] at h; exact Except.noConfusion h
      | ok bB =>
          rw [hB2] at h
          simp only [Except.bind] at h
          injection h with h
          subst h
          obtain ⟨p1, p2, p3⟩ := updatePhase_c6 sq dt b bA hA hinv
          obtain ⟨q1, q2, q3⟩ := executePhase_c6 sq dt bA bB hB2 p1
          exact ⟨q1, heapLE_trans p2 q2, le_trans p3 q3⟩

theorem troop_entInv {e : Ent} {L D : Q} (h1 : e.life = L) (h2 : e.max_life = L)
    (h3 : e.damage = D) (hD : (0 : Q) ≤ D) (hL : (0 : Q) ≤ L) : EntInv e := by
  refine ⟨?_, ?_, ?_⟩
  · rw [h1, h2]
    exact Q.le_refl' _
  · rw [h3]
    exact hD
  · intro _
    rw [h1]
    exact hL

theorem create_entity_entInv (b : Board) (t : String) (gp : Q × Q)
    (pid : Option String) (e : Ent) (c' : Nat)
    (h : b.create_entity_by_type t gp pid = .ok (some (e, c'))) : EntInv e := by
  rw [Board.create_entity_by_type] at h
  split at h
  · cases hm : mkCaballero gp.1 gp.2 pid b.counter with
    | error s => rw [hm] at h; exact Except.noConfusion h
    | ok v =>
        obtain ⟨p, c2⟩ := v
        rw [hm] at h
        simp only [Except.map] at h
        injection h with h
        injection h with h
        injection h with h1 h2
        subst h1
        rw [mkCaballero] at hm
        obtain ⟨g1, g2, g3, g4⟩ := mkTroop_fields _ _ _ _ _ _ _ _ _ _ _ _ _ hm
        exact troop_entInv g1 g2 g3 (by decide) (by decide)
  · split at h
    · cases hm : mkMago gp.1 gp.2 pid b.counter with
      | error s => rw [hm] at h; exact Except.noConfusion h
      | ok v =>
          obtain ⟨p, c2⟩ := v
          rw [hm] at h
          simp only [Except.map] at h
          injection h with h
          injection h with h
          injection h with h1 h2
          subst h1
          rw [mkMago] at hm
          obtain ⟨g1, g2, g3, g4⟩ := mkTroop_fields _ _ _ _ _ _ _ _ _ _ _ _ _ hm
          exact troop_entInv g1 g2 g3 (by decide) (by decide)
    · split at h
      · cases hm : mkMosquetera gp.1 gp.2 pid b.counter with
        | error s => rw [hm] at h; exact Except.noConfusion h
        | ok v =>
            obtain ⟨p, c2⟩ := v
            rw [hm] at h
            simp only [Except.map] at h
            injection h with h
            injection h with h
            injection h with h1 h2
            subst h1
            rw [mkMosquetera] at hm
            obtain ⟨g1, g2, g3, g4⟩ := mkTroop_fields _ _ _ _ _ _ _ _ _ _ _ _ _ hm
            exact troop_entInv g1 g2 g3 (by decide) (by decide)
      · injection h with h
        exact Option.noConfusion h

/-- Spawning a unit from an event as a C6 step. -/
theorem add_entity_c6 (b : Board) (t : String) (gp : Q × Q)
    (pid : Option String) (b' : Board)
    (h : b.add_entity t gp pid = .ok b') (hinv : C6Inv b) :
    C6Inv b' ∧ heapLE b.heap b'.heap ∧ b.counter ≤ b'.counter := by
  obtain ⟨hI, hN, hB⟩ := hinv
  rw [Board.add_entity] at h
  simp only [Except.bind, Bind.bind, Except.pure, Pure.pure] at h
  cases hc : b.create_entity_by_type t gp pid with
  | error s => rw [hc] at h; exact Except.noConfusion h
  | ok v =>
      rw [hc] at h
      cases v with
      | none =>
          simp only [] at h
          injection h with h
          subst h
          exact ⟨⟨hI, hN, hB⟩, heapLE_refl _, le_rfl⟩
      | some ec =>
          obtain ⟨e, c2⟩ := ec
          simp only [] at h
          injection h with h
          subst h
          obtain ⟨hi, hc2⟩ := create_entity_ids b t gp pid e c2 hc
          have hE := create_entity_entInv b t gp pid e c2 hc
          subst hc2
          obtain ⟨a1, a2, a3⟩ := append_c6 hI hN hB hE hi le_rfl
          exact ⟨⟨a1, a2, a3⟩, heapLE_append _ _, Nat.le_succ _⟩

theorem process_event_c6 (ev : Event) (b b' : Board)
    (h : process_event ev b = .ok b') (hinv : C6Inv b) :
    C6Inv b' ∧ heapLE b.heap b'.heap ∧ b.counter ≤ b'.counter := by
  rw [process_event] at h
  split at h
  · split at h
    all_goals
      first
        | (exact add_entity_c6 _ _ _ _ _ h hinv)
        | (injection h with h; subst h
           exact ⟨hinv, heapLE_refl _, le_rfl⟩)
  · injection h with h
    subst h
    exact ⟨hinv, heapLE_refl _, le_rfl⟩

/-- Claim C6: under the heap invariant (all objects have `life ≤ max_life`,
nonnegative damage, positive-life-while-live, duplicate-free ids within the
counter), a full `execute_tick` preserves the invariant, every pre-existing
object keeps its position, id and `max_life` with a non-increasing life
(life is only ever changed by `receive_damage` with a nonnegative amount,
which also deactivates at `life ≤ 0`), and every live object at the new tick
boundary satisfies `0 ≤ life ≤ max_life`. -/
theorem c6_life_bounds (sq : Sqrt) (tl tl' : GameTimeline) (b b' : Board)
    (hinv : C6Inv b)
    (hrun : execute_tick sq tl b = .ok (tl', b')) :
    C6Inv b' ∧ heapLE b.heap b'.heap ∧
    ∀ e ∈ b'.heap, e.active = true →
      (0 : Q) ≤ e.life ∧ e.life ≤ e.max_life := by
  rw [execute_tick] at hrun
  simp only [Except.bind, Bind.bind, Except.pure, Pure.pure] at hrun
  cases hu : b.update sq tl.tick_time with
  | error s => rw [hu] at hrun; exact Except.noConfusion hrun
  | ok b1 =>
      rw [hu] at hrun
      simp only [] at hrun
      obtain ⟨p1, p2, p3⟩ := update_c6 sq tl.tick_time b b1 hu hinv
      split at hrun
      · exact Except.noConfusion hrun
      · rename_i b2 hf
        injection hrun with hrun
        injection hrun with h1 h2
        subst h2
        have hstep : ∀ (ev : Event) (bd bd' : Board), C6Inv bd →
            process_event ev bd = .ok bd' →
            C6Inv bd' ∧ (heapLE bd.heap bd'.heap ∧ bd.counter ≤ bd'.counter) :=
          fun ev bd bd' hPp hfe => by
            obtain ⟨r1, r2, r3⟩ := process_event_c6 ev bd bd' hfe hPp
            exact ⟨r1, r2, r3⟩
        obtain ⟨q1, q2⟩ := foldl_bind_inv C6Inv
          (fun x y => heapLE x.heap y.heap ∧ x.counter ≤ y.counter)
          (fun bd => ⟨heapLE_refl _, le_rfl⟩)
          (fun a b c hh1 hh2 =>
            ⟨heapLE_trans hh1.1 hh2.1, le_trans hh1.2 hh2.2⟩)
          process_event hstep _ b1 b2 p1 hf
        refine ⟨q1, heapLE_trans p2 q2.1, ?_⟩
        intro e hm ha
        obtain ⟨g1, g2, g3⟩ := q1.1 e hm
        exact ⟨g3 ha, g1⟩

/-- An event-free timeline at 25 ticks per second. -/
def c6TL : GameTimeline :=
  { simulation_time := 0, tick_time := 1/25, events := [] }

/-- One tick of the full starting board (fallback never used). -/
def c6Res : GameTimeline × Board :=
  match execute_tick ratSqrt c6TL b0 with
  | .ok r => r
  | .error _ => (c6TL, b0)

set_option maxRecDepth 100000 in
/-- Witness for `c6_life_bounds`: after one tick of the starting board, the
live central tower's life is within its bounds. -/
theorem c6_life_bounds_witness :
    execute_tick ratSqrt c6TL b0 = .ok c6Res ∧
    (getObj c6Res.2.heap 1).map (fun e =>
        decide ((0 : Q) ≤ e.life ∧ e.life ≤ e.max_life)) = some true := by
  refine ⟨by decide, ?_⟩
  have H := c6_life_bounds ratSqrt c6TL c6Res.1 b0 c6Res.2
    (by unfold C6Inv EntInv; decide) (by decide)
  cases hgo : getObj c6Res.2.heap 1 with
  | none => exact absurd hgo (by decide)
  | some e =>
      have hmem : e ∈ c6Res.2.heap := by
        rw [getObj] at hgo
        exact List.mem_of_find?_eq_some hgo
      have ha : e.active = true := by
        have hx : (getObj c6Res.2.heap 1).map Ent.active = some true := by decide
        rw [hgo] at hx
        simp only [Option.map] at hx
        injection hx
      obtain ⟨u1, u2⟩ := H.2.2 e hmem ha
      simp only [Option.map]
      rw [decide_eq_true ⟨u1, u2⟩]
